import Mathlib

/-!
# Vehicle command orchestrator (`devices/car.go`)

A shallow embedding of the `Car` dispatcher: the builder, the bounded command
channel, the control loop `start`, the per-command handlers and the lifecycle
operations `Start`, `Do` and `Stop`.

Modelling conventions.

* An interface value (`Engine`, `Steering`, `Horn`, `Light`) is `Option Handle`:
  `none` is the nil interface, `some h` a driver object identified by `h`.
  Calling a method on `none` is the Go runtime panic "nil pointer dereference".
* Every observable effect (a driver method call, `time.Sleep`, `log.Printf`, a
  `go` statement) is an `Event`; a piece of code run on a `Car` yields a `Run`:
  how it ended, the car it left behind and the events it produced, in order.
* A `go` statement runs the spawned goroutine at the spawn point until it
  returns, parks or exhausts its observation budget, and the spawner then
  continues: commands are handled one after another.
* Go `int` arithmetic wraps at 64 bits (`wrapInt`).
-/

namespace Devices

/-- Two's-complement wrap-around of Go `int` arithmetic (64 bits). -/
def wrapInt (x : Int) : Int :=
  (x + 9223372036854775808) % 18446744073709551616 - 9223372036854775808

/-- `type CarOp string`. -/
abbrev CarOp := String

/-- `chSize = 8`: the capacity of the command channel. -/
def chSize : Nat := 8

def CarOp.forward : CarOp := "forward"
def CarOp.backward : CarOp := "backward"
def CarOp.left : CarOp := "left"
def CarOp.right : CarOp := "right"
def CarOp.brake : CarOp := "brake"
def CarOp.honk : CarOp := "honk"
def CarOp.blink : CarOp := "blink"
def CarOp.steeringleft : CarOp := "steeringleft"
def CarOp.steeringright : CarOp := "steeringright"
def CarOp.steeringreset : CarOp := "steeringreset"

/-- The ten command tags declared in the `const` block. -/
def CarOp.tags : List CarOp :=
  [CarOp.forward, CarOp.backward, CarOp.left, CarOp.right, CarOp.brake, CarOp.honk,
   CarOp.blink, CarOp.steeringleft, CarOp.steeringright, CarOp.steeringreset]

/-- Identity of a driver object held in an interface value. -/
abbrev Handle := Nat

/-- A Go `error` value; `none` is `nil`. -/
abbrev GoError := Option String

/-- `time.Millisecond`, in nanoseconds. -/
def Millisecond : Nat := 1000000

/-- `time.Second`, in nanoseconds. -/
def Second : Nat := 1000 * Millisecond

/-- Run-time panics the dispatcher can raise. -/
inductive Panic where
  | nilDereference
  | sendOnClosedChannel
  | closeOfClosedChannel
  deriving DecidableEq, Repr

/-- The functions started by the `go` statements of `car.go`. -/
inductive Goroutine where
  | start
  | roll
  | honk
  | honkFunc
  | blink
  | steeringLeft
  | steeringRight
  | steeringReset
  deriving DecidableEq, Repr

/-- Observable effects, in the order they happen. -/
inductive Event where
  | engineForward (e : Handle)
  | engineBackward (e : Handle)
  | engineLeft (e : Handle)
  | engineRight (e : Handle)
  | engineStop (e : Handle)
  | hornWhistle (h : Handle)
  | lightOn (l : Handle)
  | lightOff (l : Handle)
  | steeringRoll (s : Handle) (angle : Int)
  | sleep (ns : Nat)
  | logPrintf (format : String) (args : List Int)
  | go (g : Goroutine)
  deriving DecidableEq, Repr

/-- Calls on the `Engine` interface. -/
def Event.isEngine : Event → Bool
  | .engineForward _ => true
  | .engineBackward _ => true
  | .engineLeft _ => true
  | .engineRight _ => true
  | .engineStop _ => true
  | _ => false

/-- Calls on the `Horn` interface. -/
def Event.isHorn : Event → Bool
  | .hornWhistle _ => true
  | _ => false

/-- Calls on the `Light` interface. -/
def Event.isLight : Event → Bool
  | .lightOn _ => true
  | .lightOff _ => true
  | _ => false

/-- Calls on the `Steering` interface. -/
def Event.isSteering : Event → Bool
  | .steeringRoll _ _ => true
  | _ => false

/-- Calls on any of the four capability interfaces. -/
def Event.isActuator (ev : Event) : Bool :=
  ev.isEngine || ev.isHorn || ev.isLight || ev.isSteering

/-- `type CarBuilder struct`. -/
structure CarBuilder where
  engine : Option Handle
  steering : Option Handle
  horn : Option Handle
  light : Option Handle
  deriving DecidableEq, Repr

/-- `type Car struct`; the channel `chOp` is its buffered contents (oldest
first) together with the closed flag. -/
structure Car where
  engine : Option Handle
  horn : Option Handle
  light : Option Handle
  steering : Option Handle
  steeringAngle : Int
  chOp : List CarOp
  chClosed : Bool
  deriving DecidableEq, Repr

/-- `NewCarBuilder`. -/
def NewCarBuilder : CarBuilder :=
  { engine := none, steering := none, horn := none, light := none }

/-- `(*CarBuilder).Engine`. -/
def CarBuilder.Engine (b : CarBuilder) (eng : Option Handle) : CarBuilder :=
  { b with engine := eng }

/-- `(*CarBuilder).Horn`. -/
def CarBuilder.Horn (b : CarBuilder) (horn : Option Handle) : CarBuilder :=
  { b with horn := horn }

/-- `(*CarBuilder).Light`. -/
def CarBuilder.Light (b : CarBuilder) (light : Option Handle) : CarBuilder :=
  { b with light := light }

/-- `(*CarBuilder).Steering`. -/
def CarBuilder.Steering (b : CarBuilder) (steering : Option Handle) : CarBuilder :=
  { b with steering := steering }

/-- `(*CarBuilder).Build`: `steeringAngle` takes its zero value and `chOp` is a
fresh open channel of capacity `chSize`. -/
def CarBuilder.Build (b : CarBuilder) : Car :=
  { engine := b.engine, horn := b.horn, light := b.light, steering := b.steering,
    steeringAngle := 0, chOp := [], chClosed := false }

/-- How a piece of code ended: it returned `a`, it panicked, it is parked on a
channel operation, or it was still running when the observation budget ended. -/
inductive Status (α : Type) where
  | done (a : α)
  | panic (p : Panic)
  | blocked
  | outOfFuel
  deriving DecidableEq, Repr

/-- Outcome of running code on a car. -/
structure Run (α : Type) where
  status : Status α
  car : Car
  trace : List Event
  deriving DecidableEq, Repr

/-- Normal return without effect. -/
def Run.ret {α : Type} (a : α) (c : Car) : Run α :=
  { status := .done a, car := c, trace := [] }

/-- Sequencing of statements: the continuation runs only after a normal return. -/
def Run.next {α β : Type} (r : Run α) (f : Car → Run β) : Run β :=
  match r.status with
  | .done _ =>
    let r2 := f r.car
    { status := r2.status, car := r2.car, trace := r.trace ++ r2.trace }
  | .panic p => { status := .panic p, car := r.car, trace := r.trace }
  | .blocked => { status := .blocked, car := r.car, trace := r.trace }
  | .outOfFuel => { status := .outOfFuel, car := r.car, trace := r.trace }

/-- One observable effect. -/
def emit (ev : Event) (c : Car) : Run Unit :=
  { status := .done (), car := c, trace := [ev] }

/-- Method call on an interface value: a nil receiver panics. -/
def ifaceCall (recv : Option Handle) (m : Handle → Event) (c : Car) : Run Unit :=
  match recv with
  | none => { status := .panic .nilDereference, car := c, trace := [] }
  | some h => emit (m h) c

/-- `c.engine.M()`. -/
def engineCall (m : Handle → Event) (c : Car) : Run Unit := ifaceCall c.engine m c

/-- `c.horn.M()`. -/
def hornCall (m : Handle → Event) (c : Car) : Run Unit := ifaceCall c.horn m c

/-- `c.light.M()`. -/
def lightCall (m : Handle → Event) (c : Car) : Run Unit := ifaceCall c.light m c

/-- `c.steering.Roll(angle)`. -/
def steeringRoll (angle : Int) (c : Car) : Run Unit :=
  ifaceCall c.steering (fun s => Event.steeringRoll s angle) c

/-- `c.steeringAngle = angle`. -/
def setSteeringAngle (angle : Int) (c : Car) : Run Unit :=
  Run.ret () { c with steeringAngle := angle }

/-- `go body()`: the spawned goroutine runs at the spawn point; a panic in it
brings the program down, otherwise the spawner continues. -/
def goStmt (g : Goroutine) (body : Car → Run Unit) (c : Car) : Run Unit :=
  let r := body c
  match r.status with
  | .panic p => { status := .panic p, car := r.car, trace := Event.go g :: r.trace }
  | _ => { status := .done (), car := r.car, trace := Event.go g :: r.trace }

/-- `c.chOp <- op`. -/
def Car.send (op : CarOp) (c : Car) : Run Unit :=
  if c.chClosed then { status := .panic .sendOnClosedChannel, car := c, trace := [] }
  else if c.chOp.length < chSize then Run.ret () { c with chOp := c.chOp ++ [op] }
  else { status := .blocked, car := c, trace := [] }

/-- `close(c.chOp)`. -/
def Car.close (c : Car) : Run Unit :=
  if c.chClosed then { status := .panic .closeOfClosedChannel, car := c, trace := [] }
  else Run.ret () { c with chClosed := true }

/-- `(*Car).forward`. -/
def Car.forward (c : Car) : Run Unit :=
  (emit (.logPrintf "car: forward" []) c).next (engineCall .engineForward)

/-- `(*Car).backward`. -/
def Car.backward (c : Car) : Run Unit :=
  (emit (.logPrintf "car: backward" []) c).next (engineCall .engineBackward)

/-- `(*Car).left`. -/
def Car.left (c : Car) : Run Unit :=
  (emit (.logPrintf "car: left" []) c).next (engineCall .engineLeft)
    |>.next (emit (.sleep (70 * Millisecond)))
    |>.next (engineCall .engineStop)

/-- `(*Car).right`. -/
def Car.right (c : Car) : Run Unit :=
  (emit (.logPrintf "car: right" []) c).next (engineCall .engineRight)
    |>.next (emit (.sleep (70 * Millisecond)))
    |>.next (engineCall .engineStop)

/-- `(*Car).brake`. -/
def Car.brake (c : Car) : Run Unit :=
  (emit (.logPrintf "car: brake" []) c).next (engineCall .engineStop)

/-- The anonymous function of `honk`: `for i := 0; i < 5; i++`, the argument
being the number `5 - i` of iterations still to run. -/
def Car.honkFunc : Nat → Car → Run Unit
  | 0, c => Run.ret () c
  | n + 1, c =>
    (hornCall .hornWhistle c).next (emit (.sleep (100 * Millisecond)))
      |>.next (Car.honkFunc n)

/-- `(*Car).honk`. -/
def Car.honk (c : Car) : Run Unit :=
  (emit (.logPrintf "car: honk" []) c).next fun c =>
    if c.horn = none then Run.ret () c
    else goStmt .honkFunc (Car.honkFunc 5) c

/-- The endless `for` of `blink`, observed for `fuel` iterations. -/
def Car.blinkLoop : Nat → Car → Run Unit
  | 0, c => { status := .outOfFuel, car := c, trace := [] }
  | fuel + 1, c =>
    (lightCall .lightOn c).next (emit (.sleep (1 * Second)))
      |>.next (lightCall .lightOff)
      |>.next (emit (.sleep (1 * Second)))
      |>.next (Car.blinkLoop fuel)

/-- `(*Car).blink`. -/
def Car.blink (fuel : Nat) (c : Car) : Run Unit :=
  if c.light = none then Run.ret () c
  else Car.blinkLoop fuel c

/-- `(*Car).steeringLeft`. -/
def Car.steeringLeft (c : Car) : Run Unit :=
  let angle := wrapInt (c.steeringAngle - 15)
  let angle := if angle < -90 then -90 else angle
  (setSteeringAngle angle c).next (emit (.logPrintf "car: steering %v" [angle]))
    |>.next (steeringRoll angle)

/-- `(*Car).steeringRight`. -/
def Car.steeringRight (c : Car) : Run Unit :=
  let angle := wrapInt (c.steeringAngle + 15)
  let angle := if angle > 90 then 90 else angle
  (setSteeringAngle angle c).next (emit (.logPrintf "car: steering %v" [angle]))
    |>.next (steeringRoll angle)

/-- `(*Car).steeringReset`. -/
def Car.steeringReset (c : Car) : Run Unit :=
  (setSteeringAngle 0 c).next (emit (.logPrintf "car: steering %v" [0]))
    |>.next (steeringRoll 0)

/-- The `switch op` of the control loop: the handling of one dequeued command.
`fuel` bounds the observation of the endless blink goroutine. -/
def Car.dispatch (fuel : Nat) (c : Car) (op : CarOp) : Run Unit :=
  if op = CarOp.forward then c.forward
  else if op = CarOp.backward then c.backward
  else if op = CarOp.left then c.left
  else if op = CarOp.right then c.right
  else if op = CarOp.brake then c.brake
  else if op = CarOp.honk then goStmt .honk Car.honk c
  else if op = CarOp.blink then goStmt .blink (Car.blink fuel) c
  else if op = CarOp.steeringleft then goStmt .steeringLeft Car.steeringLeft c
  else if op = CarOp.steeringright then goStmt .steeringRight Car.steeringRight c
  else if op = CarOp.steeringreset then goStmt .steeringReset Car.steeringReset c
  else c.brake

/-- `(*Car).start`: `for op := range c.chOp`, at most `n` iterations. With the
channel empty the loop exits if the channel is closed and parks otherwise. -/
def Car.start (fuel : Nat) : Nat → Car → Run Unit
  | 0, c => { status := .outOfFuel, car := c, trace := [] }
  | n + 1, c =>
    match c.chOp with
    | op :: rest => (Car.dispatch fuel { c with chOp := rest } op).next (Car.start fuel n)
    | [] =>
      if c.chClosed then Run.ret () c
      else { status := .blocked, car := c, trace := [] }

/-- `(*Car).Start`. -/
def Car.Start (fuel n : Nat) (c : Car) : Run GoError :=
  (goStmt .start (Car.start fuel n) c).next (goStmt .roll (steeringRoll 0))
    |>.next (Car.send CarOp.blink)
    |>.next (Run.ret none)

/-- `(*Car).Do`. -/
def Car.Do (c : Car) (op : CarOp) : Run Unit :=
  Car.send op c

/-- `(*Car).Stop`. -/
def Car.Stop (c : Car) : Run GoError :=
  (Car.close c).next (engineCall .engineStop)
    |>.next (Run.ret none)

/-- Commands handled one after another, each by the control loop's `switch`;
handling stops at the first command that does not return. -/
def Car.handleAll (fuel : Nat) (c : Car) : List CarOp → Run Unit
  | [] => Run.ret () c
  | op :: ops => (Car.dispatch fuel c op).next fun c1 => Car.handleAll fuel c1 ops

/-- The steering range. -/
def inRange (a : Int) : Prop := -90 ≤ a ∧ a ≤ 90

/-- The new angle computed by `steeringLeft`. -/
def leftAngle (a : Int) : Int :=
  if wrapInt (a - 15) < -90 then -90 else wrapInt (a - 15)

/-- The new angle computed by `steeringRight`. -/
def rightAngle (a : Int) : Int :=
  if wrapInt (a + 15) > 90 then 90 else wrapInt (a + 15)

/-- A steering command tag. -/
def isSteerOp (op : CarOp) : Prop :=
  op = CarOp.steeringleft ∨ op = CarOp.steeringright ∨ op = CarOp.steeringreset

/-- The events of `n` iterations of the honk loop on horn `h`. -/
def pulses (h : Handle) : Nat → List Event
  | 0 => []
  | n + 1 => .hornWhistle h :: .sleep (100 * Millisecond) :: pulses h n

/-- An engine-directed command tag. -/
def isEngineOp (op : CarOp) : Prop :=
  op = CarOp.forward ∨ op = CarOp.backward ∨ op = CarOp.left ∨ op = CarOp.right ∨
    op = CarOp.brake

/-- Stated from the spec: the engine calls of one engine-directed command
(Forward -> Forward, Backward -> Backward, Brake -> Stop, Left -> Left, Stop,
Right -> Right, Stop). -/
def specEngineCalls (e : Handle) (op : CarOp) : List Event :=
  if op = CarOp.forward then [.engineForward e]
  else if op = CarOp.backward then [.engineBackward e]
  else if op = CarOp.brake then [.engineStop e]
  else if op = CarOp.left then [.engineLeft e, .engineStop e]
  else if op = CarOp.right then [.engineRight e, .engineStop e]
  else []

/-- Stated from the spec: the concatenation, in queue order, of each command's
own engine calls. -/
def specEngineTrace (e : Handle) : List CarOp → List Event
  | [] => []
  | op :: ops => specEngineCalls e op ++ specEngineTrace e ops

/-- Who moves next: the producer calling `Do`, or the control loop. -/
inductive Turn where
  | producer
  | loop
  deriving DecidableEq, Repr

/-- A car together with a producer that passes `pending` to `Do`, one command
after another, and the events the control loop has produced so far. -/
structure System where
  car : Car
  pending : List CarOp
  trace : List Event
  crashed : Bool
  deriving DecidableEq, Repr

/-- One scheduling step. The producer's turn is one `Do` call, which leaves the
system as it is when the call blocks; the loop's turn is one iteration of the
`range` loop of `start`. -/
def System.step (fuel : Nat) (w : System) (t : Turn) : System :=
  if w.crashed then w
  else
    match t with
    | .producer =>
      match w.pending with
      | [] => w
      | op :: rest =>
        let r := w.car.Do op
        match r.status with
        | .done _ => { w with car := r.car, pending := rest }
        | .panic _ => { w with car := r.car, crashed := true }
        | _ => w
    | .loop =>
      let r := Car.start fuel 1 w.car
      match r.status with
      | .panic _ => { w with car := r.car, trace := w.trace ++ r.trace, crashed := true }
      | _ => { w with car := r.car, trace := w.trace ++ r.trace }

/-- The system after a schedule, a finite sequence of turns. -/
def System.run (fuel : Nat) (w : System) : List Turn → System
  | [] => w
  | t :: ts => System.run fuel (w.step fuel t) ts

/-- The schedule in which each `Do` is followed by one loop iteration. -/
def roundRobin : Nat → List Turn
  | 0 => []
  | n + 1 => .producer :: .loop :: roundRobin n

/-- Invariant of the producer/loop system: what the loop has emitted, followed by
what is still queued and what is still to be sent, is the whole expected trace. -/
def FifoInv (e : Handle) (total : List Event) (w : System) : Prop :=
  w.crashed = false ∧ w.car.engine = some e ∧ w.car.chClosed = false ∧
    w.car.chOp.length ≤ chSize ∧ (∀ op ∈ w.car.chOp ++ w.pending, isEngineOp op) ∧
    w.trace.filter Event.isEngine ++ specEngineTrace e (w.car.chOp ++ w.pending) = total

/-- The car with its channel replaced by contents `q` and closed flag `cl`. -/
def Car.withChan (c : Car) (q : List CarOp) (cl : Bool) : Car :=
  { c with chOp := q, chClosed := cl }

/-- The run with the channel of its car replaced. -/
def Run.withChan {α : Type} (r : Run α) (q : List CarOp) (cl : Bool) : Run α :=
  { r with car := r.car.withChan q cl }

/-- Code that neither reads nor writes the channel. -/
def ChanFree {α : Type} (f : Car → Run α) : Prop :=
  ∀ (c : Car) (q : List CarOp) (cl : Bool), f (c.withChan q cl) = (f c).withChan q cl

/-- The command the control loop takes off the queue at this turn, if any. -/
def System.received (w : System) : Turn → List CarOp
  | .producer => []
  | .loop => if w.crashed then [] else w.car.chOp.take 1

/-- The commands the control loop has taken off the queue during a schedule, in
the order it took them. -/
def System.consumed (fuel : Nat) (w : System) : List Turn → List CarOp
  | [] => []
  | t :: ts => w.received t ++ System.consumed fuel (w.step fuel t) ts

/-- The events of `n` iterations of the blink loop on light `l`. -/
def blinkRounds (l : Handle) : Nat → List Event
  | 0 => []
  | n + 1 =>
    .lightOn l :: .sleep (1 * Second) :: .lightOff l :: .sleep (1 * Second) :: blinkRounds l n

/-- Stated from the spec: `n` repetitions of (On, Off). -/
def specOnOff (l : Handle) : Nat → List Event
  | 0 => []
  | n + 1 => .lightOn l :: .lightOff l :: specOnOff l n

/-- One call of a builder method, with the value bound (`none` is nil). -/
inductive Binding where
  | engine (eng : Option Handle)
  | horn (horn : Option Handle)
  | light (light : Option Handle)
  | steering (steering : Option Handle)
  deriving DecidableEq, Repr

/-- The builder after one method call. -/
def CarBuilder.bind (b : CarBuilder) : Binding → CarBuilder
  | .engine eng => b.Engine eng
  | .horn horn => b.Horn horn
  | .light light => b.Light light
  | .steering steering => b.Steering steering

/-- The builder after a chain of method calls, the first call first. -/
def CarBuilder.bindAll (b : CarBuilder) : List Binding → CarBuilder
  | [] => b
  | x :: xs => (b.bind x).bindAll xs

/-- The value an Engine binding carries. -/
def Binding.engine? : Binding → Option (Option Handle)
  | .engine v => some v
  | _ => none

/-- The value a Horn binding carries. -/
def Binding.horn? : Binding → Option (Option Handle)
  | .horn v => some v
  | _ => none

/-- The value a Light binding carries. -/
def Binding.light? : Binding → Option (Option Handle)
  | .light v => some v
  | _ => none

/-- The value a Steering binding carries. -/
def Binding.steering? : Binding → Option (Option Handle)
  | .steering v => some v
  | _ => none

/-- Stated from the spec: the value most recently bound for the capability
selected by `sel`, absent if it was never bound. -/
def specLastBound (sel : Binding → Option (Option Handle)) (bs : List Binding) :
    Option Handle :=
  match bs.reverse.findSome? sel with
  | some v => v
  | none => none

/-! ## Steering -/

theorem dispatch_steeringleft (fuel : Nat) (c : Car) :
    Car.dispatch fuel c CarOp.steeringleft = goStmt .steeringLeft Car.steeringLeft c := rfl

theorem dispatch_steeringright (fuel : Nat) (c : Car) :
    Car.dispatch fuel c CarOp.steeringright = goStmt .steeringRight Car.steeringRight c := rfl

theorem dispatch_steeringreset (fuel : Nat) (c : Car) :
    Car.dispatch fuel c CarOp.steeringreset = goStmt .steeringReset Car.steeringReset c := rfl

theorem goStmt_car (g : Goroutine) (body : Car → Run Unit) (c : Car) :
    (goStmt g body c).car = (body c).car := by
  unfold goStmt
  dsimp only
  split <;> rfl

theorem wrapInt_of_small (x : Int) (h1 : -9223372036854775808 ≤ x)
    (h2 : x < 9223372036854775808) : wrapInt x = x := by
  unfold wrapInt
  omega

theorem steeringLeft_car (c : Car) :
    (c.steeringLeft).car =
      { c with steeringAngle :=
          if wrapInt (c.steeringAngle - 15) < -90 then -90 else wrapInt (c.steeringAngle - 15) } := by
  cases hs : c.steering <;>
    simp [Car.steeringLeft, setSteeringAngle, emit, steeringRoll, ifaceCall, Run.next, Run.ret, hs]

theorem steeringRight_car (c : Car) :
    (c.steeringRight).car =
      { c with steeringAngle :=
          if wrapInt (c.steeringAngle + 15) > 90 then 90 else wrapInt (c.steeringAngle + 15) } := by
  cases hs : c.steering <;>
    simp [Car.steeringRight, setSteeringAngle, emit, steeringRoll, ifaceCall, Run.next, Run.ret, hs]

theorem steeringReset_car (c : Car) :
    (c.steeringReset).car = { c with steeringAngle := 0 } := by
  cases hs : c.steering <;>
    simp [Car.steeringReset, setSteeringAngle, emit, steeringRoll, ifaceCall, Run.next, Run.ret, hs]

theorem steeringLeft_inRange (c : Car) (h : inRange c.steeringAngle) :
    inRange (c.steeringLeft).car.steeringAngle := by
  rw [steeringLeft_car]
  unfold inRange wrapInt at *
  simp only
  split <;> omega

theorem steeringRight_inRange (c : Car) (h : inRange c.steeringAngle) :
    inRange (c.steeringRight).car.steeringAngle := by
  rw [steeringRight_car]
  unfold inRange wrapInt at *
  simp only
  split <;> omega

theorem steeringReset_inRange (c : Car) : inRange (c.steeringReset).car.steeringAngle := by
  rw [steeringReset_car]
  unfold inRange
  simp

theorem next_car_inv {α β : Type} (P : Car → Prop) (r : Run α) (f : Car → Run β)
    (h1 : P r.car) (h2 : ∀ c, P c → P (f c).car) : P (r.next f).car := by
  unfold Run.next
  split
  · exact h2 _ h1
  · exact h1
  · exact h1
  · exact h1

theorem steeringLeft_run (c : Car) (s : Handle) (hs : c.steering = some s) :
    c.steeringLeft =
      { status := .done (), car := { c with steeringAngle := leftAngle c.steeringAngle },
        trace := [.logPrintf "car: steering %v" [leftAngle c.steeringAngle],
                  .steeringRoll s (leftAngle c.steeringAngle)] } := by
  simp [Car.steeringLeft, setSteeringAngle, emit, steeringRoll, ifaceCall, Run.next, Run.ret, hs,
    leftAngle]

theorem steeringRight_run (c : Car) (s : Handle) (hs : c.steering = some s) :
    c.steeringRight =
      { status := .done (), car := { c with steeringAngle := rightAngle c.steeringAngle },
        trace := [.logPrintf "car: steering %v" [rightAngle c.steeringAngle],
                  .steeringRoll s (rightAngle c.steeringAngle)] } := by
  simp [Car.steeringRight, setSteeringAngle, emit, steeringRoll, ifaceCall, Run.next, Run.ret, hs,
    rightAngle]

theorem steeringReset_run (c : Car) (s : Handle) (hs : c.steering = some s) :
    c.steeringReset =
      { status := .done (), car := { c with steeringAngle := 0 },
        trace := [.logPrintf "car: steering %v" [0], .steeringRoll s 0] } := by
  simp [Car.steeringReset, setSteeringAngle, emit, steeringRoll, ifaceCall, Run.next, Run.ret, hs]

theorem dispatch_steer_inRange (fuel : Nat) (c : Car) (op : CarOp) (hop : isSteerOp op)
    (h : inRange c.steeringAngle) : inRange (Car.dispatch fuel c op).car.steeringAngle := by
  rcases hop with rfl | rfl | rfl
  · rw [dispatch_steeringleft, goStmt_car]; exact steeringLeft_inRange c h
  · rw [dispatch_steeringright, goStmt_car]; exact steeringRight_inRange c h
  · rw [dispatch_steeringreset, goStmt_car]; exact steeringReset_inRange c

theorem handleAll_steer_inRange (fuel : Nat) (ops : List CarOp) (hops : ∀ op ∈ ops, isSteerOp op) :
    ∀ c : Car, inRange c.steeringAngle → inRange (Car.handleAll fuel c ops).car.steeringAngle := by
  induction ops with
  | nil => intro c h; exact h
  | cons op ops ih =>
    intro c h
    unfold Car.handleAll
    refine next_car_inv (fun c => inRange c.steeringAngle) _ _ ?_ ?_
    · exact dispatch_steer_inRange fuel c op (hops op (List.mem_cons_self _ _)) h
    · intro c1 h1
      exact ih (fun o ho => hops o (List.mem_cons_of_mem _ ho)) c1 h1

theorem dispatch_steer_done (fuel : Nat) (c : Car) (s : Handle) (hs : c.steering = some s)
    (op : CarOp) (hop : isSteerOp op) :
    (Car.dispatch fuel c op).status = .done () ∧ (Car.dispatch fuel c op).car.steering = some s := by
  rcases hop with rfl | rfl | rfl
  · rw [dispatch_steeringleft]; simp [goStmt, steeringLeft_run c s hs, hs]
  · rw [dispatch_steeringright]; simp [goStmt, steeringRight_run c s hs, hs]
  · rw [dispatch_steeringreset]; simp [goStmt, steeringReset_run c s hs, hs]

theorem handleAll_steer_done (fuel : Nat) (s : Handle) (ops : List CarOp)
    (hops : ∀ op ∈ ops, isSteerOp op) :
    ∀ c : Car, c.steering = some s → (Car.handleAll fuel c ops).status = .done () := by
  induction ops with
  | nil => intro c _; rfl
  | cons op ops ih =>
    intro c hs
    have hd := dispatch_steer_done fuel c s hs op (hops op (List.mem_cons_self _ _))
    unfold Car.handleAll
    simp only [Run.next, hd.1]
    exact ih (fun o ho => hops o (List.mem_cons_of_mem _ ho)) _ hd.2

/-- C1. Steering commands handled one after another on a freshly built car keep
`steeringAngle` within [-90, 90] after every prefix of the sequence (and, when the
car has a Steering, every prefix is handled to completion); each of `steeringLeft`,
`steeringRight` and `steeringReset` maps an angle in [-90, 90] to an angle in
[-90, 90]. -/
theorem steeringAngle_always_in_range (b : CarBuilder) (fuel : Nat) (ops : List CarOp)
    (hops : ∀ op ∈ ops, op = CarOp.steeringleft ∨ op = CarOp.steeringright ∨
      op = CarOp.steeringreset) :
    (∀ n : Nat,
      -90 ≤ (Car.handleAll fuel b.Build (ops.take n)).car.steeringAngle ∧
      (Car.handleAll fuel b.Build (ops.take n)).car.steeringAngle ≤ 90) ∧
    (b.steering ≠ none → ∀ n : Nat, (Car.handleAll fuel b.Build (ops.take n)).status = .done ()) ∧
    (∀ c : Car, -90 ≤ c.steeringAngle → c.steeringAngle ≤ 90 →
      (-90 ≤ (c.steeringLeft).car.steeringAngle ∧ (c.steeringLeft).car.steeringAngle ≤ 90) ∧
      (-90 ≤ (c.steeringRight).car.steeringAngle ∧ (c.steeringRight).car.steeringAngle ≤ 90) ∧
      (-90 ≤ (c.steeringReset).car.steeringAngle ∧ (c.steeringReset).car.steeringAngle ≤ 90)) := by
  have htake : ∀ n, ∀ op ∈ ops.take n, isSteerOp op :=
    fun n op hop => hops op (List.mem_of_mem_take hop)
  refine ⟨fun n => ?_, fun hs n => ?_, fun c h1 h2 => ⟨?_, ?_, ?_⟩⟩
  · exact handleAll_steer_inRange fuel _ (htake n) b.Build
      (by unfold inRange CarBuilder.Build; constructor <;> simp)
  · obtain ⟨s, hs'⟩ := Option.ne_none_iff_exists'.mp hs
    exact handleAll_steer_done fuel s _ (htake n) b.Build hs'
  · exact steeringLeft_inRange c ⟨h1, h2⟩
  · exact steeringRight_inRange c ⟨h1, h2⟩
  · exact steeringReset_inRange c

theorem steeringAngle_always_in_range_witness :
    (∀ op ∈ [CarOp.steeringleft, CarOp.steeringright, CarOp.steeringreset],
      op = CarOp.steeringleft ∨ op = CarOp.steeringright ∨ op = CarOp.steeringreset) ∧
    (-90 ≤ (Car.handleAll 0 (NewCarBuilder.Steering (some 1)).Build
        ([CarOp.steeringleft, CarOp.steeringright, CarOp.steeringreset].take 1)).car.steeringAngle ∧
      (Car.handleAll 0 (NewCarBuilder.Steering (some 1)).Build
        ([CarOp.steeringleft, CarOp.steeringright, CarOp.steeringreset].take 1)).car.steeringAngle
          ≤ 90) :=
  ⟨by decide,
   (steeringAngle_always_in_range (NewCarBuilder.Steering (some 1)) 0
      [CarOp.steeringleft, CarOp.steeringright, CarOp.steeringreset] (by decide)).1 1⟩

theorem leftAngle_of_mult (a : Int) (hdiv : 15 ∣ a) (hlo : -90 ≤ a) (hhi : a ≤ 90) :
    (-90 < a → leftAngle a = a - 15) ∧ (a = -90 → leftAngle a = -90) ∧
      15 ∣ leftAngle a := by
  have hw : wrapInt (a - 15) = a - 15 := wrapInt_of_small _ (by omega) (by omega)
  unfold leftAngle
  rw [hw]
  refine ⟨fun h => ?_, fun h => ?_, ?_⟩ <;> split <;> omega

theorem rightAngle_of_mult (a : Int) (hdiv : 15 ∣ a) (hlo : -90 ≤ a) (hhi : a ≤ 90) :
    (a < 90 → rightAngle a = a + 15) ∧ (a = 90 → rightAngle a = 90) ∧
      15 ∣ rightAngle a := by
  have hw : wrapInt (a + 15) = a + 15 := wrapInt_of_small _ (by omega) (by omega)
  unfold rightAngle
  rw [hw]
  refine ⟨fun h => ?_, fun h => ?_, ?_⟩ <;> split <;> omega

theorem dispatch_steeringleft_run (fuel : Nat) (c : Car) (s : Handle) (hs : c.steering = some s) :
    Car.dispatch fuel c CarOp.steeringleft =
      { status := .done (), car := { c with steeringAngle := leftAngle c.steeringAngle },
        trace := [.go .steeringLeft,
                  .logPrintf "car: steering %v" [leftAngle c.steeringAngle],
                  .steeringRoll s (leftAngle c.steeringAngle)] } := by
  rw [dispatch_steeringleft]; simp [goStmt, steeringLeft_run c s hs]

theorem dispatch_steeringright_run (fuel : Nat) (c : Car) (s : Handle) (hs : c.steering = some s) :
    Car.dispatch fuel c CarOp.steeringright =
      { status := .done (), car := { c with steeringAngle := rightAngle c.steeringAngle },
        trace := [.go .steeringRight,
                  .logPrintf "car: steering %v" [rightAngle c.steeringAngle],
                  .steeringRoll s (rightAngle c.steeringAngle)] } := by
  rw [dispatch_steeringright]; simp [goStmt, steeringRight_run c s hs]

theorem dispatch_steeringreset_run (fuel : Nat) (c : Car) (s : Handle) (hs : c.steering = some s) :
    Car.dispatch fuel c CarOp.steeringreset =
      { status := .done (), car := { c with steeringAngle := 0 },
        trace := [.go .steeringReset, .logPrintf "car: steering %v" [0], .steeringRoll s 0] } := by
  rw [dispatch_steeringreset]; simp [goStmt, steeringReset_run c s hs]

/-- C2. On a car with a Steering whose angle `a` is a multiple of 15 in [-90, 90],
SteerLeft sets `steeringAngle` to `a - 15` when `a > -90` and leaves it at -90 when
`a = -90`, SteerRight sets it to `a + 15` when `a < 90` and leaves it at 90 when
`a = 90`; each makes exactly one `Steering.Roll` call, with the new angle, and the
new angle is again a multiple of 15. -/
theorem steer_step_exact_or_saturates (fuel : Nat) (c : Car) (s : Handle)
    (hs : c.steering = some s) (hdiv : 15 ∣ c.steeringAngle)
    (hlo : -90 ≤ c.steeringAngle) (hhi : c.steeringAngle ≤ 90) :
    ((Car.dispatch fuel c CarOp.steeringleft).status = .done () ∧
      (-90 < c.steeringAngle →
        (Car.dispatch fuel c CarOp.steeringleft).car.steeringAngle = c.steeringAngle - 15) ∧
      (c.steeringAngle = -90 →
        (Car.dispatch fuel c CarOp.steeringleft).car.steeringAngle = -90) ∧
      (Car.dispatch fuel c CarOp.steeringleft).trace.filter Event.isSteering =
        [.steeringRoll s (Car.dispatch fuel c CarOp.steeringleft).car.steeringAngle] ∧
      15 ∣ (Car.dispatch fuel c CarOp.steeringleft).car.steeringAngle) ∧
    ((Car.dispatch fuel c CarOp.steeringright).status = .done () ∧
      (c.steeringAngle < 90 →
        (Car.dispatch fuel c CarOp.steeringright).car.steeringAngle = c.steeringAngle + 15) ∧
      (c.steeringAngle = 90 →
        (Car.dispatch fuel c CarOp.steeringright).car.steeringAngle = 90) ∧
      (Car.dispatch fuel c CarOp.steeringright).trace.filter Event.isSteering =
        [.steeringRoll s (Car.dispatch fuel c CarOp.steeringright).car.steeringAngle] ∧
      15 ∣ (Car.dispatch fuel c CarOp.steeringright).car.steeringAngle) := by
  have hl := leftAngle_of_mult c.steeringAngle hdiv hlo hhi
  have hr := rightAngle_of_mult c.steeringAngle hdiv hlo hhi
  rw [dispatch_steeringleft_run fuel c s hs, dispatch_steeringright_run fuel c s hs]
  refine ⟨⟨rfl, hl.1, hl.2.1, ?_, hl.2.2⟩, ⟨rfl, hr.1, hr.2.1, ?_, hr.2.2⟩⟩ <;>
    simp [List.filter, Event.isSteering]

theorem steer_step_exact_or_saturates_witness :
    ((Car.dispatch 0 (NewCarBuilder.Steering (some 1)).Build CarOp.steeringleft).status
        = .done () ∧
      (Car.dispatch 0 (NewCarBuilder.Steering (some 1)).Build
        CarOp.steeringleft).car.steeringAngle = -15) ∧
    ((Car.dispatch 0 (NewCarBuilder.Steering (some 1)).Build CarOp.steeringright).status
        = .done () ∧
      (Car.dispatch 0 (NewCarBuilder.Steering (some 1)).Build
        CarOp.steeringright).car.steeringAngle = 15) :=
  have h := steer_step_exact_or_saturates 0 (NewCarBuilder.Steering (some 1)).Build 1 rfl
    (by decide) (by decide) (by decide)
  ⟨⟨h.1.1, h.1.2.1 (by decide)⟩, ⟨h.2.1, h.2.2.1 (by decide)⟩⟩

/-- C3. Whatever the prior `steeringAngle`, handling SteerReset leaves
`steeringAngle` at 0; on a car with a Steering the handling returns and makes
exactly one `Steering.Roll` call, `Roll(0)`. -/
theorem steerReset_yields_zero (fuel : Nat) (c : Car) :
    (Car.dispatch fuel c CarOp.steeringreset).car.steeringAngle = 0 ∧
    (∀ s : Handle, c.steering = some s →
      (Car.dispatch fuel c CarOp.steeringreset).status = .done () ∧
      (Car.dispatch fuel c CarOp.steeringreset).car = { c with steeringAngle := 0 } ∧
      (Car.dispatch fuel c CarOp.steeringreset).trace.filter Event.isSteering =
        [.steeringRoll s 0] ∧
      (Car.dispatch fuel c CarOp.steeringreset).trace.filter Event.isActuator =
        [.steeringRoll s 0]) := by
  refine ⟨?_, fun s hs => ?_⟩
  · rw [dispatch_steeringreset, goStmt_car, steeringReset_car]
  · rw [dispatch_steeringreset_run fuel c s hs]
    simp [List.filter, Event.isSteering, Event.isActuator, Event.isEngine, Event.isHorn,
      Event.isLight]

theorem steerReset_yields_zero_witness :
    (Car.dispatch 0 { (NewCarBuilder.Steering (some 1)).Build with steeringAngle := 45 }
        CarOp.steeringreset).status = .done () ∧
    (Car.dispatch 0 { (NewCarBuilder.Steering (some 1)).Build with steeringAngle := 45 }
        CarOp.steeringreset).trace.filter Event.isSteering = [.steeringRoll 1 0] :=
  have h := (steerReset_yields_zero 0
    { (NewCarBuilder.Steering (some 1)).Build with steeringAngle := 45 }).2 1 rfl
  ⟨h.1, h.2.2.1⟩

/-! ## The control loop's `switch` -/

theorem dispatch_forward (fuel : Nat) (c : Car) :
    Car.dispatch fuel c CarOp.forward = c.forward := rfl

theorem dispatch_backward (fuel : Nat) (c : Car) :
    Car.dispatch fuel c CarOp.backward = c.backward := rfl

theorem dispatch_left (fuel : Nat) (c : Car) :
    Car.dispatch fuel c CarOp.left = c.left := rfl

theorem dispatch_right (fuel : Nat) (c : Car) :
    Car.dispatch fuel c CarOp.right = c.right := rfl

theorem dispatch_brake (fuel : Nat) (c : Car) :
    Car.dispatch fuel c CarOp.brake = c.brake := rfl

theorem dispatch_honk (fuel : Nat) (c : Car) :
    Car.dispatch fuel c CarOp.honk = goStmt .honk Car.honk c := rfl

theorem dispatch_blink (fuel : Nat) (c : Car) :
    Car.dispatch fuel c CarOp.blink = goStmt .blink (Car.blink fuel) c := rfl

theorem dispatch_default (fuel : Nat) (c : Car) (op : CarOp) (hop : op ∉ CarOp.tags) :
    Car.dispatch fuel c op = c.brake := by
  simp only [CarOp.tags, List.mem_cons, List.mem_singleton, not_or, List.not_mem_nil,
    not_false_eq_true, and_true] at hop
  obtain ⟨h1, h2, h3, h4, h5, h6, h7, h8, h9, h10⟩ := hop
  simp [Car.dispatch, h1, h2, h3, h4, h5, h6, h7, h8, h9, h10]

/-! ## Engine-directed handlers -/

theorem forward_run (c : Car) (e : Handle) (he : c.engine = some e) :
    c.forward =
      { status := .done (), car := c,
        trace := [.logPrintf "car: forward" [], .engineForward e] } := by
  simp [Car.forward, emit, engineCall, ifaceCall, Run.next, he]

theorem backward_run (c : Car) (e : Handle) (he : c.engine = some e) :
    c.backward =
      { status := .done (), car := c,
        trace := [.logPrintf "car: backward" [], .engineBackward e] } := by
  simp [Car.backward, emit, engineCall, ifaceCall, Run.next, he]

theorem left_run (c : Car) (e : Handle) (he : c.engine = some e) :
    c.left =
      { status := .done (), car := c,
        trace := [.logPrintf "car: left" [], .engineLeft e, .sleep (70 * Millisecond),
                  .engineStop e] } := by
  simp [Car.left, emit, engineCall, ifaceCall, Run.next, he]

theorem right_run (c : Car) (e : Handle) (he : c.engine = some e) :
    c.right =
      { status := .done (), car := c,
        trace := [.logPrintf "car: right" [], .engineRight e, .sleep (70 * Millisecond),
                  .engineStop e] } := by
  simp [Car.right, emit, engineCall, ifaceCall, Run.next, he]

theorem brake_run (c : Car) (e : Handle) (he : c.engine = some e) :
    c.brake =
      { status := .done (), car := c,
        trace := [.logPrintf "car: brake" [], .engineStop e] } := by
  simp [Car.brake, emit, engineCall, ifaceCall, Run.next, he]

/-! ## Honk and blink -/

theorem honkFunc_run (c : Car) (h : Handle) (hh : c.horn = some h) (n : Nat) :
    c.honkFunc n =
      { status := .done (), car := c, trace := pulses h n } := by
  induction n with
  | zero => rfl
  | succ n ih =>
    simp [Car.honkFunc, pulses, hornCall, ifaceCall, emit, Run.next, hh, ih]

theorem honk_run (c : Car) (h : Handle) (hh : c.horn = some h) :
    c.honk =
      { status := .done (), car := c,
        trace := .logPrintf "car: honk" [] :: .go .honkFunc :: pulses h 5 } := by
  simp [Car.honk, emit, Run.next, hh, goStmt, honkFunc_run c h hh]

theorem honk_run_absent (c : Car) (hh : c.horn = none) :
    c.honk = { status := .done (), car := c, trace := [.logPrintf "car: honk" []] } := by
  simp [Car.honk, emit, Run.next, hh, Run.ret]

theorem blink_run_absent (fuel : Nat) (c : Car) (hl : c.light = none) :
    c.blink fuel = { status := .done (), car := c, trace := [] } := by
  simp [Car.blink, hl, Run.ret]

theorem blinkLoop_status (c : Car) (l : Handle) (hl : c.light = some l) (fuel : Nat) :
    (c.blinkLoop fuel).status = .outOfFuel ∧ (c.blinkLoop fuel).car = c := by
  induction fuel with
  | zero => exact ⟨rfl, rfl⟩
  | succ n ih =>
    simp [Car.blinkLoop, lightCall, ifaceCall, emit, Run.next, hl, ih.1, ih.2]

theorem dispatch_blink_status (fuel : Nat) (c : Car) :
    (Car.dispatch fuel c CarOp.blink).status = .done () ∧
      (Car.dispatch fuel c CarOp.blink).car = c := by
  rw [dispatch_blink]
  cases hl : c.light with
  | none => simp [goStmt, blink_run_absent fuel c hl]
  | some l =>
    have h := blinkLoop_status c l hl fuel
    simp [goStmt, Car.blink, hl, h.1, h.2]

theorem dispatch_honk_status (fuel : Nat) (c : Car) :
    (Car.dispatch fuel c CarOp.honk).status = .done () ∧
      (Car.dispatch fuel c CarOp.honk).car = c := by
  rw [dispatch_honk]
  cases hh : c.horn with
  | none => simp [goStmt, honk_run_absent c hh]
  | some h => simp [goStmt, honk_run c h hh]

/-! ## Absent capabilities -/

theorem dispatch_done_of_engine_steering (fuel : Nat) (c : Car) (e s : Handle)
    (he : c.engine = some e) (hs : c.steering = some s) (op : CarOp) :
    (Car.dispatch fuel c op).status = .done () := by
  by_cases hop : op ∈ CarOp.tags
  · simp only [CarOp.tags, List.mem_cons, List.mem_singleton, List.not_mem_nil, or_false] at hop
    rcases hop with rfl | rfl | rfl | rfl | rfl | rfl | rfl | rfl | rfl | rfl
    · rw [dispatch_forward, forward_run c e he]
    · rw [dispatch_backward, backward_run c e he]
    · rw [dispatch_left, left_run c e he]
    · rw [dispatch_right, right_run c e he]
    · rw [dispatch_brake, brake_run c e he]
    · exact (dispatch_honk_status fuel c).1
    · exact (dispatch_blink_status fuel c).1
    · rw [dispatch_steeringleft_run fuel c s hs]
    · rw [dispatch_steeringright_run fuel c s hs]
    · rw [dispatch_steeringreset_run fuel c s hs]
  · rw [dispatch_default fuel c op hop, brake_run c e he]

theorem Start_run (fuel n : Nat) (b : CarBuilder) (s : Handle) (hs : b.steering = some s) :
    Car.Start fuel n b.Build =
      { status := .done none, car := { b.Build with chOp := [CarOp.blink] },
        trace := [.go .start, .go .roll, .steeringRoll s 0] } := by
  cases n <;>
    simp [Car.Start, Car.start, goStmt, Run.next, Run.ret, steeringRoll, ifaceCall, emit,
      Car.send, CarBuilder.Build, hs, chSize]

/-- C4 (as stated, refuted). A car built without a Steering panics with a nil
dereference in `Start` and when the loop handles SteerLeft, and a car built
without an Engine panics when the loop handles Forward. -/
theorem absent_capability_nil_dereference :
    (Car.Start 1 1 (((NewCarBuilder.Engine (some 1)).Horn (some 2)).Light (some 3)).Build).status
      = .panic .nilDereference ∧
    (Car.dispatch 1 (((NewCarBuilder.Engine (some 1)).Horn (some 2)).Light (some 3)).Build
      CarOp.steeringleft).status = .panic .nilDereference ∧
    (Car.dispatch 1 (((NewCarBuilder.Steering (some 1)).Horn (some 2)).Light (some 3)).Build
      CarOp.forward).status = .panic .nilDereference := by
  decide

/-- C4 (amended). For every car built with an Engine and a Steering, whether or
not a Horn and a Light are bound, `Start` returns nil and the control loop's
handling of every command returns, neither panicking; Honk on a car without a
Horn and Blink on a car without a Light make no actuator call and leave the car
unchanged. -/
theorem absent_horn_light_no_failure (b : CarBuilder) (e s : Handle)
    (he : b.engine = some e) (hs : b.steering = some s) (op : CarOp) (fuel n : Nat) :
    (Car.Start fuel n b.Build).status = .done none ∧
    (Car.dispatch fuel b.Build op).status = .done () ∧
    (Car.dispatch fuel (Car.Start fuel n b.Build).car op).status = .done () ∧
    (b.horn = none →
      (Car.dispatch fuel b.Build CarOp.honk).trace.filter Event.isActuator = [] ∧
      (Car.dispatch fuel b.Build CarOp.honk).car = b.Build) ∧
    (b.light = none →
      (Car.dispatch fuel b.Build CarOp.blink).trace.filter Event.isActuator = [] ∧
      (Car.dispatch fuel b.Build CarOp.blink).car = b.Build) := by
  refine ⟨?_, ?_, ?_, fun hh => ?_, fun hl => ?_⟩
  · rw [Start_run fuel n b s hs]
  · exact dispatch_done_of_engine_steering fuel b.Build e s he hs op
  · rw [Start_run fuel n b s hs]
    exact dispatch_done_of_engine_steering fuel _ e s he hs op
  · have hh' : b.Build.horn = none := hh
    rw [dispatch_honk]
    simp [goStmt, honk_run_absent b.Build hh', Event.isActuator, Event.isEngine, Event.isHorn,
      Event.isLight, Event.isSteering]
  · have hl' : b.Build.light = none := hl
    rw [dispatch_blink]
    simp [goStmt, blink_run_absent fuel b.Build hl', Event.isActuator, Event.isEngine,
      Event.isHorn, Event.isLight, Event.isSteering]

theorem absent_horn_light_no_failure_witness :
    (Car.Start 1 1 ((NewCarBuilder.Engine (some 1)).Steering (some 2)).Build).status
      = .done none ∧
    (Car.dispatch 1 ((NewCarBuilder.Engine (some 1)).Steering (some 2)).Build
      CarOp.honk).trace.filter Event.isActuator = [] :=
  have h := absent_horn_light_no_failure ((NewCarBuilder.Engine (some 1)).Steering (some 2))
    1 2 rfl rfl CarOp.honk 1 1
  ⟨h.1, (h.2.2.2.1 rfl).1⟩

/-! ## Unrecognised commands -/

/-- C5. A command string that is none of the ten tags is handled exactly as
Brake; on a car with an Engine this is exactly one `Engine.Stop()` call, no other
actuator call, and the car (its `steeringAngle` included) is left unchanged. -/
theorem unrecognized_op_handled_as_brake (fuel : Nat) (c : Car) (op : CarOp)
    (hop : op ∉ CarOp.tags) :
    Car.dispatch fuel c op = Car.dispatch fuel c CarOp.brake ∧
    (∀ e : Handle, c.engine = some e →
      (Car.dispatch fuel c op).status = .done () ∧
      (Car.dispatch fuel c op).trace = [.logPrintf "car: brake" [], .engineStop e] ∧
      (Car.dispatch fuel c op).trace.filter Event.isActuator = [.engineStop e] ∧
      (Car.dispatch fuel c op).car = c ∧
      (Car.dispatch fuel c op).car.steeringAngle = c.steeringAngle) := by
  rw [dispatch_default fuel c op hop, dispatch_brake]
  refine ⟨rfl, fun e he => ?_⟩
  rw [brake_run c e he]
  simp [Event.isActuator, Event.isEngine, Event.isHorn, Event.isLight, Event.isSteering]

theorem unrecognized_op_handled_as_brake_witness :
    Car.dispatch 0 (NewCarBuilder.Engine (some 1)).Build "" =
      Car.dispatch 0 (NewCarBuilder.Engine (some 1)).Build CarOp.brake ∧
    (Car.dispatch 0 (NewCarBuilder.Engine (some 1)).Build "").trace.filter Event.isActuator
      = [.engineStop 1] :=
  have h := unrecognized_op_handled_as_brake 0 (NewCarBuilder.Engine (some 1)).Build ""
    (by decide)
  ⟨h.1, (h.2 1 rfl).2.2.1⟩

/-! ## Turn impulses, honk and blink -/

/-- C7. On a car with an Engine, handling Left makes exactly the engine calls
`Left()` then `Stop()`, with a 70 ms sleep in between, and handling Right makes
`Right()`, the same sleep, then `Stop()`; the last engine call of either is
`Stop()`. -/
theorem left_right_end_with_stop (fuel : Nat) (c : Car) (e : Handle)
    (he : c.engine = some e) :
    (Car.dispatch fuel c CarOp.left =
        { status := .done (), car := c,
          trace := [.logPrintf "car: left" [], .engineLeft e, .sleep 70000000,
                    .engineStop e] } ∧
      (Car.dispatch fuel c CarOp.left).trace.filter Event.isEngine =
        [.engineLeft e, .engineStop e] ∧
      ((Car.dispatch fuel c CarOp.left).trace.filter Event.isEngine).getLast? =
        some (.engineStop e)) ∧
    (Car.dispatch fuel c CarOp.right =
        { status := .done (), car := c,
          trace := [.logPrintf "car: right" [], .engineRight e, .sleep 70000000,
                    .engineStop e] } ∧
      (Car.dispatch fuel c CarOp.right).trace.filter Event.isEngine =
        [.engineRight e, .engineStop e] ∧
      ((Car.dispatch fuel c CarOp.right).trace.filter Event.isEngine).getLast? =
        some (.engineStop e)) ∧
    70 * Millisecond = 70000000 := by
  rw [dispatch_left, dispatch_right, left_run c e he, right_run c e he]
  simp [Event.isEngine, Millisecond]

theorem left_right_end_with_stop_witness :
    (Car.dispatch 0 (NewCarBuilder.Engine (some 1)).Build CarOp.left).trace.filter
        Event.isEngine = [.engineLeft 1, .engineStop 1] ∧
    (Car.dispatch 0 (NewCarBuilder.Engine (some 1)).Build CarOp.right).trace.filter
        Event.isEngine = [.engineRight 1, .engineStop 1] :=
  have h := left_right_end_with_stop 0 (NewCarBuilder.Engine (some 1)).Build 1 rfl
  ⟨h.1.2.1, h.2.1.2.1⟩

theorem dispatch_honk_run (fuel : Nat) (c : Car) (h : Handle) (hh : c.horn = some h) :
    Car.dispatch fuel c CarOp.honk =
      { status := .done (), car := c,
        trace := .go .honk :: .logPrintf "car: honk" [] :: .go .honkFunc :: pulses h 5 } := by
  rw [dispatch_honk]
  simp [goStmt, honk_run c h hh]

/-- C8. On a car with a Horn, handling one Honk makes exactly 5 `Whistle()`
calls, each followed by a 100 ms sleep, then the honk goroutines return; no
Engine, Light or Steering call is made and the car is unchanged. -/
theorem honk_five_whistles (fuel : Nat) (c : Car) (h : Handle) (hh : c.horn = some h) :
    Car.dispatch fuel c CarOp.honk =
      { status := .done (), car := c,
        trace := [.go .honk, .logPrintf "car: honk" [], .go .honkFunc,
                  .hornWhistle h, .sleep 100000000, .hornWhistle h, .sleep 100000000,
                  .hornWhistle h, .sleep 100000000, .hornWhistle h, .sleep 100000000,
                  .hornWhistle h, .sleep 100000000] } ∧
    (c.honk).status = .done () ∧
    (c.honkFunc 5).status = .done () ∧
    (Car.dispatch fuel c CarOp.honk).trace.filter Event.isHorn =
      List.replicate 5 (.hornWhistle h) ∧
    (Car.dispatch fuel c CarOp.honk).trace.filter
      (fun ev => ev.isEngine || ev.isLight || ev.isSteering) = [] ∧
    100 * Millisecond = 100000000 := by
  rw [dispatch_honk_run fuel c h hh, honk_run c h hh, honkFunc_run c h hh]
  simp [pulses, Event.isHorn, Event.isEngine, Event.isLight, Event.isSteering,
    Millisecond, List.replicate]

theorem honk_five_whistles_witness :
    (Car.dispatch 0 (NewCarBuilder.Horn (some 7)).Build CarOp.honk).trace.filter Event.isHorn =
      List.replicate 5 (.hornWhistle 7) :=
  (honk_five_whistles 0 (NewCarBuilder.Horn (some 7)).Build 7 rfl).2.2.2.1

/-- C9. On a car without a Horn, handling Honk returns without failure and makes
no `Whistle()` call (no actuator call at all); on a car without a Light, `blink`
returns at once and handling Blink returns without failure and makes no Light call
(no actuator call at all). -/
theorem honk_blink_absent_noop (fuel : Nat) (c : Car) :
    (c.horn = none →
      Car.dispatch fuel c CarOp.honk =
        { status := .done (), car := c,
          trace := [.go .honk, .logPrintf "car: honk" []] } ∧
      (Car.dispatch fuel c CarOp.honk).trace.filter Event.isHorn = [] ∧
      (Car.dispatch fuel c CarOp.honk).trace.filter Event.isActuator = []) ∧
    (c.light = none →
      c.blink fuel = { status := .done (), car := c, trace := [] } ∧
      Car.dispatch fuel c CarOp.blink =
        { status := .done (), car := c, trace := [.go .blink] } ∧
      (Car.dispatch fuel c CarOp.blink).trace.filter Event.isLight = [] ∧
      (Car.dispatch fuel c CarOp.blink).trace.filter Event.isActuator = []) := by
  refine ⟨fun hh => ?_, fun hl => ?_⟩
  · rw [dispatch_honk]
    simp [goStmt, honk_run_absent c hh, Event.isActuator, Event.isEngine, Event.isHorn,
      Event.isLight, Event.isSteering]
  · rw [dispatch_blink]
    simp [goStmt, blink_run_absent fuel c hl, Event.isActuator, Event.isEngine, Event.isHorn,
      Event.isLight, Event.isSteering]

theorem honk_blink_absent_noop_witness :
    (Car.dispatch 3 (NewCarBuilder.Engine (some 1)).Build CarOp.honk).trace.filter
        Event.isHorn = [] ∧
    (Car.dispatch 3 (NewCarBuilder.Engine (some 1)).Build CarOp.blink).trace.filter
        Event.isLight = [] :=
  have h := honk_blink_absent_noop 3 (NewCarBuilder.Engine (some 1)).Build
  ⟨(h.1 rfl).2.1, (h.2 rfl).2.2.1⟩

/-! ## FIFO handling of engine-directed commands -/

theorem dispatch_engineOp (fuel : Nat) (c : Car) (e : Handle) (he : c.engine = some e)
    (op : CarOp) (hop : isEngineOp op) :
    (Car.dispatch fuel c op).status = .done () ∧ (Car.dispatch fuel c op).car = c ∧
      (Car.dispatch fuel c op).trace.filter Event.isEngine = specEngineCalls e op := by
  rcases hop with rfl | rfl | rfl | rfl | rfl
  · rw [dispatch_forward, forward_run c e he]; exact ⟨rfl, rfl, rfl⟩
  · rw [dispatch_backward, backward_run c e he]; exact ⟨rfl, rfl, rfl⟩
  · rw [dispatch_left, left_run c e he]; exact ⟨rfl, rfl, rfl⟩
  · rw [dispatch_right, right_run c e he]; exact ⟨rfl, rfl, rfl⟩
  · rw [dispatch_brake, brake_run c e he]; exact ⟨rfl, rfl, rfl⟩

theorem specEngineTrace_append (e : Handle) (xs ys : List CarOp) :
    specEngineTrace e (xs ++ ys) = specEngineTrace e xs ++ specEngineTrace e ys := by
  induction xs with
  | nil => rfl
  | cons x xs ih => simp [specEngineTrace, ih]

theorem producer_step_fifoInv (fuel : Nat) (e : Handle) (total : List Event) (w : System)
    (h : FifoInv e total w) : FifoInv e total (w.step fuel .producer) := by
  obtain ⟨hcr, he, hcl, hlen, hops, htr⟩ := h
  unfold System.step
  rw [if_neg (by simp [hcr])]
  cases hp : w.pending with
  | nil => exact ⟨hcr, he, hcl, hlen, hops, htr⟩
  | cons op rest =>
    rw [hp] at hops htr
    by_cases hl : w.car.chOp.length < chSize
    · simp only [Car.Do, Car.send, hcl, hl, Run.ret, if_true, Bool.false_eq_true, if_false]
      refine ⟨hcr, he, rfl, ?_, ?_, ?_⟩
      · simp only [List.length_append, List.length_singleton]; omega
      · intro o ho
        apply hops o
        simpa using ho
      · simpa using htr
    · simp only [Car.Do, Car.send, hcl, hl, Bool.false_eq_true, if_false]
      refine ⟨hcr, he, hcl, hlen, ?_, ?_⟩
      · rw [hp]; exact hops
      · rw [hp]; exact htr

theorem loop_step_fifoInv (fuel : Nat) (e : Handle) (total : List Event) (w : System)
    (h : FifoInv e total w) : FifoInv e total (w.step fuel .loop) := by
  obtain ⟨hcr, he, hcl, hlen, hops, htr⟩ := h
  unfold System.step
  rw [if_neg (by simp [hcr])]
  cases hq : w.car.chOp with
  | nil =>
    rw [hq] at hops htr hlen
    simp only [Car.start, hq, hcl, Bool.false_eq_true, if_false, List.append_nil]
    exact ⟨hcr, he, hcl, by rw [hq]; exact hlen, by rw [hq]; exact hops, by rw [hq]; exact htr⟩
  | cons op q =>
    rw [hq] at hops htr hlen
    have hd := dispatch_engineOp fuel { w.car with chOp := q } e he op
      (hops op (by simp))
    obtain ⟨h1, h2, h3⟩ := hd
    simp only [Car.start, hq, Run.next, h1, h2, List.append_nil]
    refine ⟨hcr, he, hcl, ?_, ?_, ?_⟩
    · simp only [List.length_cons] at hlen ⊢; omega
    · intro o ho
      apply hops o
      simp only [List.cons_append, List.mem_cons]
      exact Or.inr ho
    · simp only [List.filter_append, h3]
      simpa [specEngineTrace, List.append_assoc] using htr

theorem run_fifoInv (fuel : Nat) (e : Handle) (total : List Event) (sched : List Turn) :
    ∀ w : System, FifoInv e total w → FifoInv e total (w.run fuel sched) := by
  induction sched with
  | nil => intro w h; exact h
  | cons t ts ih =>
    intro w h
    unfold System.run
    apply ih
    cases t
    · exact producer_step_fifoInv fuel e total w h
    · exact loop_step_fifoInv fuel e total w h

theorem producer_step_sends (fuel : Nat) (e : Handle) (total : List Event) (w : System)
    (h : FifoInv e total w) (op : CarOp) (rest : List CarOp) (hp : w.pending = op :: rest)
    (hl : w.car.chOp.length < chSize) :
    (w.step fuel .producer).pending = rest ∧
      (w.step fuel .producer).car.chOp = w.car.chOp ++ [op] := by
  obtain ⟨hcr, _, hcl, _, _, _⟩ := h
  unfold System.step
  rw [if_neg (by simp [hcr])]
  simp only [hp, Car.Do, Car.send, hcl, hl, Run.ret, if_true, Bool.false_eq_true, if_false,
    and_self]

theorem loop_step_receives (fuel : Nat) (e : Handle) (total : List Event) (w : System)
    (h : FifoInv e total w) (op : CarOp) (q : List CarOp) (hq : w.car.chOp = op :: q) :
    (w.step fuel .loop).pending = w.pending ∧ (w.step fuel .loop).car.chOp = q := by
  obtain ⟨hcr, he, _, _, hops, _⟩ := h
  have hd := dispatch_engineOp fuel { w.car with chOp := q } e he op
    (hops op (by simp [hq]))
  obtain ⟨h1, h2, _⟩ := hd
  unfold System.step
  rw [if_neg (by simp [hcr])]
  simp only [Car.start, hq, Run.next, h1, h2, and_self]

theorem roundRobin_drains (fuel : Nat) (e : Handle) (total : List Event) (ops : List CarOp) :
    ∀ w : System, FifoInv e total w → w.car.chOp = [] → w.pending = ops →
      (w.run fuel (roundRobin ops.length)).pending = [] ∧
        (w.run fuel (roundRobin ops.length)).car.chOp = [] := by
  induction ops with
  | nil => intro w _ hq hp; exact ⟨hp, hq⟩
  | cons op rest ih =>
    intro w h hq hp
    have h1 := producer_step_fifoInv fuel e total w h
    have s1 := producer_step_sends fuel e total w h op rest hp (by rw [hq]; decide)
    rw [hq, List.nil_append] at s1
    have h2 := loop_step_fifoInv fuel e total _ h1
    have s2 := loop_step_receives fuel e total _ h1 op [] s1.2
    simp only [List.length_cons, roundRobin, System.run]
    exact ih _ h2 s2.2 (s2.1.trans s1.1)

/-- C6. On an open, empty-queued car with an Engine, a producer passes the
engine-directed commands `ops` to `Do` while the control loop runs. Under every
schedule nothing panics, the queue never exceeds its capacity, and the engine
calls made so far, followed by those of the queued and of the not yet sent
commands, are the concatenation in order of each command's own calls; so once
everything is consumed the engine-call trace is exactly that concatenation, as
happens under the round-robin schedule. Forward then Brake yields exactly
`Forward()` followed by `Stop()`. -/
theorem engine_commands_fifo (fuel : Nat) (c : Car) (e : Handle) (he : c.engine = some e)
    (hq : c.chOp = []) (hc : c.chClosed = false) (ops : List CarOp)
    (hops : ∀ op ∈ ops, op = CarOp.forward ∨ op = CarOp.backward ∨ op = CarOp.left ∨
      op = CarOp.right ∨ op = CarOp.brake) :
    (∀ sched : List Turn,
      (System.run fuel ⟨c, ops, [], false⟩ sched).crashed = false ∧
      (System.run fuel ⟨c, ops, [], false⟩ sched).car.chOp.length ≤ chSize ∧
      (System.run fuel ⟨c, ops, [], false⟩ sched).trace.filter Event.isEngine ++
          specEngineTrace e ((System.run fuel ⟨c, ops, [], false⟩ sched).car.chOp ++
            (System.run fuel ⟨c, ops, [], false⟩ sched).pending) =
        specEngineTrace e ops ∧
      ((System.run fuel ⟨c, ops, [], false⟩ sched).pending = [] →
        (System.run fuel ⟨c, ops, [], false⟩ sched).car.chOp = [] →
        (System.run fuel ⟨c, ops, [], false⟩ sched).trace.filter Event.isEngine =
          specEngineTrace e ops)) ∧
    ((System.run fuel ⟨c, ops, [], false⟩ (roundRobin ops.length)).pending = [] ∧
      (System.run fuel ⟨c, ops, [], false⟩ (roundRobin ops.length)).car.chOp = [] ∧
      (System.run fuel ⟨c, ops, [], false⟩ (roundRobin ops.length)).trace.filter
        Event.isEngine = specEngineTrace e ops) ∧
    (System.run fuel ⟨c, [CarOp.forward, CarOp.brake], [], false⟩ (roundRobin 2)).trace.filter
      Event.isEngine = [.engineForward e, .engineStop e] := by
  have inv0 : ∀ xs : List CarOp, (∀ op ∈ xs, isEngineOp op) →
      FifoInv e (specEngineTrace e xs) ⟨c, xs, [], false⟩ := by
    intro xs hxs
    refine ⟨rfl, he, hc, ?_, ?_, ?_⟩
    · simp [hq]
    · simpa [hq] using hxs
    · simp [hq]
  have key : ∀ xs : List CarOp, (∀ op ∈ xs, isEngineOp op) → ∀ sched : List Turn,
      (System.run fuel ⟨c, xs, [], false⟩ sched).pending = [] →
      (System.run fuel ⟨c, xs, [], false⟩ sched).car.chOp = [] →
      (System.run fuel ⟨c, xs, [], false⟩ sched).trace.filter Event.isEngine =
        specEngineTrace e xs := by
    intro xs hxs sched hp hq'
    have h := (run_fifoInv fuel e _ sched _ (inv0 xs hxs)).2.2.2.2.2
    rw [hp, hq'] at h
    simpa [specEngineTrace] using h
  have drain : ∀ xs : List CarOp, (∀ op ∈ xs, isEngineOp op) →
      (System.run fuel ⟨c, xs, [], false⟩ (roundRobin xs.length)).pending = [] ∧
      (System.run fuel ⟨c, xs, [], false⟩ (roundRobin xs.length)).car.chOp = [] :=
    fun xs hxs => roundRobin_drains fuel e _ xs _ (inv0 xs hxs) hq rfl
  refine ⟨fun sched => ?_, ?_, ?_⟩
  · have h := run_fifoInv fuel e _ sched _ (inv0 ops hops)
    exact ⟨h.1, h.2.2.2.1, h.2.2.2.2.2, key ops hops sched⟩
  · have d := drain ops hops
    exact ⟨d.1, d.2, key ops hops _ d.1 d.2⟩
  · have h2 : ∀ op ∈ [CarOp.forward, CarOp.brake], isEngineOp op := by
      intro op hop
      simp only [List.mem_cons, List.mem_singleton, List.not_mem_nil, or_false] at hop
      rcases hop with rfl | rfl
      · exact Or.inl rfl
      · exact Or.inr (Or.inr (Or.inr (Or.inr rfl)))
    have d := drain _ h2
    exact key _ h2 _ d.1 d.2

theorem engine_commands_fifo_witness :
    (System.run 0 ⟨(NewCarBuilder.Engine (some 1)).Build, [CarOp.left, CarOp.forward], [], false⟩
      (roundRobin 2)).trace.filter Event.isEngine =
        specEngineTrace 1 [CarOp.left, CarOp.forward] ∧
    specEngineTrace 1 [CarOp.left, CarOp.forward] =
      [.engineLeft 1, .engineStop 1, .engineForward 1] :=
  ⟨(engine_commands_fifo 0 (NewCarBuilder.Engine (some 1)).Build 1 rfl rfl rfl
      [CarOp.left, CarOp.forward] (by decide)).2.1.2.2, by decide⟩

/-! ## Stop -/

theorem chanFree_emit (ev : Event) : ChanFree (emit ev) := fun _ _ _ => rfl

theorem chanFree_ret {α : Type} (a : α) : ChanFree (Run.ret a) := fun _ _ _ => rfl

theorem chanFree_engineCall (m : Handle → Event) : ChanFree (engineCall m) := by
  intro c q cl
  cases h : c.engine <;> simp [engineCall, ifaceCall, Car.withChan, Run.withChan, emit, h]

theorem chanFree_hornCall (m : Handle → Event) : ChanFree (hornCall m) := by
  intro c q cl
  cases h : c.horn <;> simp [hornCall, ifaceCall, Car.withChan, Run.withChan, emit, h]

theorem chanFree_lightCall (m : Handle → Event) : ChanFree (lightCall m) := by
  intro c q cl
  cases h : c.light <;> simp [lightCall, ifaceCall, Car.withChan, Run.withChan, emit, h]

theorem chanFree_steeringRoll (a : Int) : ChanFree (steeringRoll a) := by
  intro c q cl
  cases h : c.steering <;> simp [steeringRoll, ifaceCall, Car.withChan, Run.withChan, emit, h]

theorem chanFree_setSteeringAngle (a : Int) : ChanFree (setSteeringAngle a) :=
  fun _ _ _ => rfl

theorem chanFree_next {α β : Type} (f : Car → Run α) (g : Car → Run β)
    (hf : ChanFree f) (hg : ChanFree g) : ChanFree (fun c => (f c).next g) := by
  intro c q cl
  simp only [hf c q cl]
  unfold Run.next
  cases h : (f c).status <;> simp [Run.withChan, h, hg (f c).car q cl]

theorem chanFree_goStmt (g : Goroutine) (body : Car → Run Unit) (hb : ChanFree body) :
    ChanFree (goStmt g body) := by
  intro c q cl
  unfold goStmt
  simp only [hb c q cl]
  cases h : (body c).status <;> simp [Run.withChan, h]

theorem chanFree_forward : ChanFree Car.forward :=
  chanFree_next _ _ (chanFree_emit _) (chanFree_engineCall _)

theorem chanFree_backward : ChanFree Car.backward :=
  chanFree_next _ _ (chanFree_emit _) (chanFree_engineCall _)

theorem chanFree_brake : ChanFree Car.brake :=
  chanFree_next _ _ (chanFree_emit _) (chanFree_engineCall _)

theorem chanFree_left : ChanFree Car.left :=
  chanFree_next _ _
    (chanFree_next _ _ (chanFree_next _ _ (chanFree_emit _) (chanFree_engineCall _))
      (chanFree_emit _))
    (chanFree_engineCall _)

theorem chanFree_right : ChanFree Car.right :=
  chanFree_next _ _
    (chanFree_next _ _ (chanFree_next _ _ (chanFree_emit _) (chanFree_engineCall _))
      (chanFree_emit _))
    (chanFree_engineCall _)

theorem chanFree_honkFunc (n : Nat) : ChanFree (Car.honkFunc n) := by
  induction n with
  | zero => exact chanFree_ret ()
  | succ n ih =>
    exact chanFree_next _ _ (chanFree_next _ _ (chanFree_hornCall _) (chanFree_emit _)) ih

theorem chanFree_honk : ChanFree Car.honk := by
  refine chanFree_next _ _ (chanFree_emit _) ?_
  intro c q cl
  cases h : c.horn with
  | none =>
    have h' : (c.withChan q cl).horn = none := h
    simp only [h, h', if_true]
    rfl
  | some x =>
    have h' : (c.withChan q cl).horn = some x := h
    simp only [h, h', if_false, reduceCtorEq]
    exact chanFree_goStmt _ _ (chanFree_honkFunc 5) c q cl

theorem chanFree_blinkLoop (fuel : Nat) : ChanFree (Car.blinkLoop fuel) := by
  induction fuel with
  | zero => intro c q cl; rfl
  | succ n ih =>
    exact chanFree_next _ _
      (chanFree_next _ _
        (chanFree_next _ _ (chanFree_next _ _ (chanFree_lightCall _) (chanFree_emit _))
          (chanFree_lightCall _))
        (chanFree_emit _))
      ih

theorem chanFree_blink (fuel : Nat) : ChanFree (Car.blink fuel) := by
  intro c q cl
  unfold Car.blink
  cases h : c.light with
  | none =>
    have h' : (c.withChan q cl).light = none := h
    simp only [h', if_true]
    rfl
  | some x =>
    have h' : (c.withChan q cl).light = some x := h
    simp only [h', if_false, reduceCtorEq]
    exact chanFree_blinkLoop fuel c q cl

theorem chanFree_steeringLeft : ChanFree Car.steeringLeft := fun c q cl =>
  chanFree_next _ _
    (chanFree_next _ _ (chanFree_setSteeringAngle (leftAngle c.steeringAngle)) (chanFree_emit _))
    (chanFree_steeringRoll (leftAngle c.steeringAngle)) c q cl

theorem chanFree_steeringRight : ChanFree Car.steeringRight := fun c q cl =>
  chanFree_next _ _
    (chanFree_next _ _ (chanFree_setSteeringAngle (rightAngle c.steeringAngle)) (chanFree_emit _))
    (chanFree_steeringRoll (rightAngle c.steeringAngle)) c q cl

theorem chanFree_steeringReset : ChanFree Car.steeringReset :=
  chanFree_next _ _ (chanFree_next _ _ (chanFree_setSteeringAngle 0) (chanFree_emit _))
    (chanFree_steeringRoll 0)

theorem chanFree_dispatch (fuel : Nat) (op : CarOp) :
    ChanFree (fun c => Car.dispatch fuel c op) := by
  intro c q cl
  show Car.dispatch fuel (c.withChan q cl) op = (Car.dispatch fuel c op).withChan q cl
  by_cases hop : op ∈ CarOp.tags
  · simp only [CarOp.tags, List.mem_cons, List.mem_singleton, List.not_mem_nil, or_false] at hop
    rcases hop with rfl | rfl | rfl | rfl | rfl | rfl | rfl | rfl | rfl | rfl
    · rw [dispatch_forward, dispatch_forward]; exact chanFree_forward c q cl
    · rw [dispatch_backward, dispatch_backward]; exact chanFree_backward c q cl
    · rw [dispatch_left, dispatch_left]; exact chanFree_left c q cl
    · rw [dispatch_right, dispatch_right]; exact chanFree_right c q cl
    · rw [dispatch_brake, dispatch_brake]; exact chanFree_brake c q cl
    · rw [dispatch_honk, dispatch_honk]; exact chanFree_goStmt _ _ chanFree_honk c q cl
    · rw [dispatch_blink, dispatch_blink]
      exact chanFree_goStmt _ _ (chanFree_blink fuel) c q cl
    · rw [dispatch_steeringleft, dispatch_steeringleft]
      exact chanFree_goStmt _ _ chanFree_steeringLeft c q cl
    · rw [dispatch_steeringright, dispatch_steeringright]
      exact chanFree_goStmt _ _ chanFree_steeringRight c q cl
    · rw [dispatch_steeringreset, dispatch_steeringreset]
      exact chanFree_goStmt _ _ chanFree_steeringReset c q cl
  · rw [dispatch_default _ _ _ hop, dispatch_default _ _ _ hop]
    exact chanFree_brake c q cl

theorem dispatch_car_of_engine_steering (fuel : Nat) (c : Car) (e s : Handle)
    (he : c.engine = some e) (hs : c.steering = some s) (op : CarOp) :
    (Car.dispatch fuel c op).car.engine = some e ∧
      (Car.dispatch fuel c op).car.steering = some s := by
  by_cases hop : op ∈ CarOp.tags
  · simp only [CarOp.tags, List.mem_cons, List.mem_singleton, List.not_mem_nil, or_false] at hop
    rcases hop with rfl | rfl | rfl | rfl | rfl | rfl | rfl | rfl | rfl | rfl
    · rw [dispatch_forward, forward_run c e he]; exact ⟨he, hs⟩
    · rw [dispatch_backward, backward_run c e he]; exact ⟨he, hs⟩
    · rw [dispatch_left, left_run c e he]; exact ⟨he, hs⟩
    · rw [dispatch_right, right_run c e he]; exact ⟨he, hs⟩
    · rw [dispatch_brake, brake_run c e he]; exact ⟨he, hs⟩
    · rw [(dispatch_honk_status fuel c).2]; exact ⟨he, hs⟩
    · rw [(dispatch_blink_status fuel c).2]; exact ⟨he, hs⟩
    · rw [dispatch_steeringleft_run fuel c s hs]; exact ⟨he, hs⟩
    · rw [dispatch_steeringright_run fuel c s hs]; exact ⟨he, hs⟩
    · rw [dispatch_steeringreset_run fuel c s hs]; exact ⟨he, hs⟩
  · rw [dispatch_default fuel c op hop, brake_run c e he]; exact ⟨he, hs⟩

theorem handleAll_done_of_engine_steering (fuel : Nat) (e s : Handle) (ops : List CarOp) :
    ∀ c : Car, c.engine = some e → c.steering = some s →
      (Car.handleAll fuel c ops).status = .done () := by
  induction ops with
  | nil => intro c _ _; rfl
  | cons op ops ih =>
    intro c he hs
    have hd := dispatch_done_of_engine_steering fuel c e s he hs op
    have hc := dispatch_car_of_engine_steering fuel c e s he hs op
    unfold Car.handleAll
    simp only [Run.next, hd]
    exact ih _ hc.1 hc.2

theorem start_closed_drains (fuel : Nat) (q : List CarOp) :
    ∀ (c : Car) (n : Nat), c.chOp = q → c.chClosed = true → q.length < n →
      (Car.start fuel n c).withChan [] true = Car.handleAll fuel (c.withChan [] true) q ∧
        ((Car.start fuel n c).status = .done () → (Car.start fuel n c).car.chOp = []) := by
  induction q with
  | nil =>
    intro c n hq hc hn
    obtain ⟨m, rfl⟩ : ∃ m, n = m + 1 := ⟨n - 1, by simp at hn; omega⟩
    simp only [Car.start, hq, hc, if_true]
    exact ⟨rfl, fun _ => hq⟩
  | cons op q ih =>
    intro c n hq hc hn
    obtain ⟨m, rfl⟩ : ∃ m, n = m + 1 := ⟨n - 1, by simp at hn; omega⟩
    have hm : q.length < m := by simp at hn; omega
    have e1 : ({ c with chOp := q } : Car) = c.withChan q true := by
      simp [Car.withChan, hc]
    have d1 := chanFree_dispatch fuel op c q true
    have d2 := chanFree_dispatch fuel op c [] true
    simp only at d1 d2
    simp only [Car.start, hq, Car.handleAll, e1, d1, d2]
    have ih' := ih ((Car.dispatch fuel c op).car.withChan q true) m rfl rfl hm
    unfold Run.next
    cases hst : (Car.dispatch fuel c op).status with
    | done a =>
      simp only [Run.withChan, hst]
      have ih1 := ih'.1
      simp only [Run.withChan, Car.withChan] at ih1 ⊢
      refine ⟨?_, ih'.2⟩
      rw [← ih1]
    | panic p => simp [Run.withChan, Car.withChan, hst]
    | blocked => simp [Run.withChan, Car.withChan, hst]
    | outOfFuel => simp [Run.withChan, Car.withChan, hst]

theorem Stop_run (c : Car) (e : Handle) (he : c.engine = some e) (hc : c.chClosed = false) :
    c.Stop =
      { status := .done none, car := { c with chClosed := true },
        trace := [.engineStop e] } := by
  simp [Car.Stop, Car.close, hc, Run.ret, Run.next, engineCall, ifaceCall, emit, he]

/-- C10. On a car with an Engine whose queue is still open, `Stop()` closes the
queue, calls `Engine.Stop()` exactly once and returns nil. Afterwards every
`Do(op)` panics with a send on a closed channel and enqueues nothing, while the
control loop, given one iteration more than there are queued commands, handles
the queued commands one after another exactly as `handleAll` does and, unless a
handler panics, exits with the queue empty; with a Steering present too it exits. -/
theorem stop_closes_queue (fuel : Nat) (c : Car) (e : Handle) (he : c.engine = some e)
    (hc : c.chClosed = false) :
    c.Stop =
      { status := .done none, car := { c with chClosed := true },
        trace := [.engineStop e] } ∧
    (c.Stop).trace.filter Event.isActuator = [.engineStop e] ∧
    (∀ op : CarOp,
      (c.Stop).car.Do op =
        { status := .panic .sendOnClosedChannel, car := (c.Stop).car, trace := [] } ∧
      ((c.Stop).car.Do op).car.chOp = c.chOp) ∧
    (∀ n : Nat, c.chOp.length < n →
      (Car.start fuel n (c.Stop).car).withChan [] true =
        Car.handleAll fuel (c.withChan [] true) c.chOp ∧
      (Car.start fuel n (c.Stop).car).status =
        (Car.handleAll fuel (c.withChan [] true) c.chOp).status ∧
      (Car.start fuel n (c.Stop).car).trace =
        (Car.handleAll fuel (c.withChan [] true) c.chOp).trace ∧
      ((Car.start fuel n (c.Stop).car).status = .done () →
        (Car.start fuel n (c.Stop).car).car.chOp = []) ∧
      (c.steering ≠ none →
        (Car.start fuel n (c.Stop).car).status = .done () ∧
        (Car.start fuel n (c.Stop).car).car.chOp = [])) := by
  rw [Stop_run c e he hc]
  refine ⟨rfl, ?_, fun op => ?_, fun n hn => ?_⟩
  · simp [Event.isActuator, Event.isEngine]
  · simp [Car.Do, Car.send]
  · have h := start_closed_drains fuel c.chOp { c with chClosed := true } n rfl rfl hn
    have h1 : Car.withChan { c with chClosed := true } [] true = c.withChan [] true := rfl
    rw [h1] at h
    have hst : (Car.start fuel n { c with chClosed := true }).status =
        (Car.handleAll fuel (c.withChan [] true) c.chOp).status := by
      rw [← h.1]; rfl
    refine ⟨h.1, hst, ?_, h.2, fun hs => ?_⟩
    · rw [← h.1]; rfl
    · obtain ⟨s, hs'⟩ := Option.ne_none_iff_exists'.mp hs
      have hd := handleAll_done_of_engine_steering fuel e s c.chOp (c.withChan [] true) he hs'
      exact ⟨hst.trans hd, h.2 (hst.trans hd)⟩

theorem stop_closes_queue_witness :
    (((NewCarBuilder.Engine (some 1)).Build.Do CarOp.forward).car.Stop).status = .done none ∧
    (Car.start 0 2 (((NewCarBuilder.Engine (some 1)).Build.Do CarOp.forward).car.Stop).car).trace
      = [.logPrintf "car: forward" [], .engineForward 1] ∧
    (Car.start 0 2 (((NewCarBuilder.Engine (some 1)).Build.Do CarOp.forward).car.Stop).car).status
      = .done () :=
  have h := stop_closes_queue 0 ((NewCarBuilder.Engine (some 1)).Build.Do CarOp.forward).car 1
    rfl rfl
  ⟨congrArg Run.status h.1, ((h.2.2.2 2 (by decide)).2.2.1).trans (by decide),
    ((h.2.2.2 2 (by decide)).2.1).trans (by decide)⟩

/-! ## Backpressure on the bounded queue -/

theorem Do_open_room (c : Car) (hc : c.chClosed = false) (op : CarOp)
    (hl : c.chOp.length < chSize) :
    c.Do op = { status := .done (), car := { c with chOp := c.chOp ++ [op] }, trace := [] } := by
  simp [Car.Do, Car.send, hc, hl, Run.ret]

theorem Do_open_full (c : Car) (hc : c.chClosed = false) (op : CarOp)
    (hl : ¬ c.chOp.length < chSize) :
    c.Do op = { status := .blocked, car := c, trace := [] } := by
  simp [Car.Do, Car.send, hc, hl]

theorem start_one_car (fuel : Nat) (c : Car) (op : CarOp) (q : List CarOp)
    (hq : c.chOp = op :: q) :
    (Car.start fuel 1 c).car.chOp = q ∧ (Car.start fuel 1 c).car.chClosed = c.chClosed := by
  have e1 : ({ c with chOp := q } : Car) = c.withChan q c.chClosed := rfl
  have d1 := chanFree_dispatch fuel op c q c.chClosed
  simp only at d1
  simp only [Car.start, hq, e1, d1]
  unfold Run.next
  cases hst : (Car.dispatch fuel c op).status <;> simp [Run.withChan, Car.withChan, hst]

theorem loop_step_car (fuel : Nat) (w : System) (hcr : w.crashed = false) :
    (w.step fuel .loop).car = (Car.start fuel 1 w.car).car ∧
      (w.step fuel .loop).pending = w.pending := by
  unfold System.step
  rw [if_neg (by simp [hcr])]
  dsimp only
  split <;> exact ⟨rfl, rfl⟩

theorem step_conserves (fuel : Nat) (w : System) (t : Turn) (hc : w.car.chClosed = false)
    (hl : w.car.chOp.length ≤ chSize) :
    (w.step fuel t).car.chClosed = false ∧ (w.step fuel t).car.chOp.length ≤ chSize ∧
      w.received t ++ ((w.step fuel t).car.chOp ++ (w.step fuel t).pending) =
        w.car.chOp ++ w.pending := by
  by_cases hcr : w.crashed = true
  · have hs : w.step fuel t = w := by unfold System.step; rw [if_pos hcr]
    rw [hs]
    cases t <;> simp [System.received, hcr, hc, hl]
  · have hcr' : w.crashed = false := by simpa using hcr
    cases t with
    | producer =>
      unfold System.step
      rw [if_neg hcr]
      cases hp : w.pending with
      | nil => simp [System.received, hc, hl, hp]
      | cons op rest =>
        by_cases hlt : w.car.chOp.length < chSize
        · simp only [Do_open_room w.car hc op hlt, System.received, List.nil_append]
          refine ⟨hc, ?_, ?_⟩
          · simp only [List.length_append, List.length_singleton]; omega
          · simp
        · simp only [Do_open_full w.car hc op hlt, System.received, List.nil_append]
          exact ⟨hc, hl, by rw [hp]⟩
    | loop =>
      obtain ⟨h1, h2⟩ := loop_step_car fuel w hcr'
      rw [h1, h2]
      cases hq : w.car.chOp with
      | nil =>
        have hs : Car.start fuel 1 w.car = { status := .blocked, car := w.car, trace := [] } := by
          simp [Car.start, hq, hc]
        rw [hs]
        simp [System.received, hcr', hq, hc]
      | cons op q =>
        obtain ⟨k1, k2⟩ := start_one_car fuel w.car op q hq
        rw [k1, k2]
        refine ⟨hc, ?_, ?_⟩
        · rw [hq] at hl; simp only [List.length_cons] at hl; omega
        · simp [System.received, hcr', hq]

theorem run_conserves (fuel : Nat) (sched : List Turn) :
    ∀ w : System, w.car.chClosed = false → w.car.chOp.length ≤ chSize →
      (w.run fuel sched).car.chClosed = false ∧ (w.run fuel sched).car.chOp.length ≤ chSize ∧
        System.consumed fuel w sched ++
            ((w.run fuel sched).car.chOp ++ (w.run fuel sched).pending) =
          w.car.chOp ++ w.pending := by
  induction sched with
  | nil => intro w hc hl; exact ⟨hc, hl, rfl⟩
  | cons t ts ih =>
    intro w hc hl
    obtain ⟨s1, s2, s3⟩ := step_conserves fuel w t hc hl
    obtain ⟨r1, r2, r3⟩ := ih (w.step fuel t) s1 s2
    refine ⟨r1, r2, ?_⟩
    simp only [System.consumed, System.run, List.append_assoc]
    rw [← s3]
    simpa [List.append_assoc] using r3

/-- C11. On an open queue holding fewer than 8 commands `Do(op)` returns at once
with `op` appended at the tail. On an open queue holding 8 commands `Do(op)`
blocks: nothing is enqueued, and the producer keeps `op` until, once the control
loop has taken the head off the queue, the same `Do(op)` appends it. Under every
schedule of producer and loop turns the queue never holds more than 8 commands
and no command is lost: the commands consumed by the loop, then the queued ones,
then the ones still to be sent, are the original commands in order. -/
theorem do_blocks_when_full (fuel : Nat) (c : Car) (hc : c.chClosed = false) (op : CarOp) :
    (c.chOp.length < 8 →
      c.Do op =
        { status := .done (), car := { c with chOp := c.chOp ++ [op] }, trace := [] }) ∧
    (c.chOp.length = 8 →
      c.Do op = { status := .blocked, car := c, trace := [] } ∧
      (∀ (pending : List CarOp) (trace : List Event),
        System.step fuel ⟨c, op :: pending, trace, false⟩ .producer =
          ⟨c, op :: pending, trace, false⟩) ∧
      (Car.start fuel 1 c).car.chOp = c.chOp.tail ∧
      ((Car.start fuel 1 c).car.Do op).status = .done () ∧
      ((Car.start fuel 1 c).car.Do op).car.chOp = c.chOp.tail ++ [op]) ∧
    (c.chOp.length ≤ 8 → ∀ (pending : List CarOp) (sched : List Turn),
      (System.run fuel ⟨c, pending, [], false⟩ sched).car.chOp.length ≤ 8 ∧
      System.consumed fuel ⟨c, pending, [], false⟩ sched ++
          ((System.run fuel ⟨c, pending, [], false⟩ sched).car.chOp ++
            (System.run fuel ⟨c, pending, [], false⟩ sched).pending) =
        c.chOp ++ pending) := by
  refine ⟨fun hl => Do_open_room c hc op hl, fun hl => ?_, fun hl pending sched => ?_⟩
  · have hfull : ¬ c.chOp.length < chSize := by simp [chSize, hl]
    have hb := Do_open_full c hc op hfull
    obtain ⟨x, q, hq⟩ : ∃ x q, c.chOp = x :: q := by
      cases hq : c.chOp with
      | nil => rw [hq] at hl; simp at hl
      | cons x q => exact ⟨x, q, rfl⟩
    obtain ⟨k1, k2⟩ := start_one_car fuel c x q hq
    have hlen : (Car.start fuel 1 c).car.chOp.length < chSize := by
      rw [k1]; rw [hq] at hl; simp only [List.length_cons] at hl; simp [chSize]; omega
    have hd := Do_open_room (Car.start fuel 1 c).car (k2.trans hc) op hlen
    refine ⟨hb, fun pending trace => ?_, ?_, ?_, ?_⟩
    · simp [System.step, hb]
    · rw [k1, hq]; rfl
    · rw [hd]
    · rw [hd, hq]; simp [k1]
  · have h := run_conserves fuel sched ⟨c, pending, [], false⟩ hc hl
    exact ⟨h.2.1, h.2.2⟩

theorem do_blocks_when_full_witness :
    (({ (NewCarBuilder.Engine (some 1)).Build with
        chOp := ["a", "b", "c", "d", "e", "f", "g", "h"] } : Car).Do CarOp.forward).status
      = .blocked ∧
    ((NewCarBuilder.Engine (some 1)).Build.Do CarOp.forward).car.chOp = [CarOp.forward] :=
  ⟨congrArg Run.status
      ((do_blocks_when_full 0
        { (NewCarBuilder.Engine (some 1)).Build with
          chOp := ["a", "b", "c", "d", "e", "f", "g", "h"] } rfl CarOp.forward).2.1 rfl).1,
   congrArg (fun r => r.car.chOp)
      ((do_blocks_when_full 0 (NewCarBuilder.Engine (some 1)).Build rfl CarOp.forward).1
        (by decide))⟩

/-! ## The blink goroutine -/

theorem blinkLoop_run (c : Car) (l : Handle) (hl : c.light = some l) (fuel : Nat) :
    c.blinkLoop fuel = { status := .outOfFuel, car := c, trace := blinkRounds l fuel } := by
  induction fuel with
  | zero => rfl
  | succ n ih =>
    simp [Car.blinkLoop, blinkRounds, lightCall, ifaceCall, emit, Run.next, hl, ih]

theorem blink_run (c : Car) (l : Handle) (hl : c.light = some l) (fuel : Nat) :
    c.blink fuel = { status := .outOfFuel, car := c, trace := blinkRounds l fuel } := by
  simp [Car.blink, hl, blinkLoop_run c l hl fuel]

theorem filter_blinkRounds (l : Handle) (n : Nat) :
    (blinkRounds l n).filter Event.isLight = specOnOff l n := by
  induction n with
  | zero => rfl
  | succ n ih => simp [blinkRounds, specOnOff, Event.isLight, ih]

theorem take_specOnOff (l : Handle) (n : Nat) :
    ∀ fuel : Nat, n ≤ fuel → (specOnOff l fuel).take (2 * n) = specOnOff l n := by
  induction n with
  | zero => intro fuel _; simp [specOnOff]
  | succ n ih =>
    intro fuel h
    obtain ⟨m, rfl⟩ : ∃ m, fuel = m + 1 := ⟨fuel - 1, by omega⟩
    have e : 2 * (n + 1) = (2 * n + 1) + 1 := by ring
    rw [e]
    simp only [specOnOff, List.take_succ_cons]
    rw [ih m (by omega)]

/-- C12. On a car with a Light the blink goroutine calls `On()`, sleeps 1 s, calls
`Off()`, sleeps 1 s, and so on: observed for any number of iterations it has made
exactly that many (On, sleep, Off, sleep) rounds and has not returned, and for
every `n` within the observation its first `2 * n` Light calls are `n`
repetitions of (On, Off). Handling a Blink command spawns exactly this goroutine. -/
theorem blink_alternates_forever (c : Car) (l : Handle) (hl : c.light = some l) :
    (∀ fuel : Nat,
      c.blink fuel = { status := .outOfFuel, car := c, trace := blinkRounds l fuel } ∧
      (c.blink fuel).status ≠ .done ()) ∧
    (∀ fuel n : Nat, n ≤ fuel →
      ((c.blink fuel).trace.filter Event.isLight).take (2 * n) = specOnOff l n) ∧
    (∀ fuel : Nat,
      Car.dispatch fuel c CarOp.blink =
        { status := .done (), car := c, trace := .go .blink :: blinkRounds l fuel }) ∧
    blinkRounds l 2 =
      [.lightOn l, .sleep 1000000000, .lightOff l, .sleep 1000000000,
       .lightOn l, .sleep 1000000000, .lightOff l, .sleep 1000000000] ∧
    specOnOff l 2 = [.lightOn l, .lightOff l, .lightOn l, .lightOff l] := by
  refine ⟨fun fuel => ?_, fun fuel n hn => ?_, fun fuel => ?_, ?_, rfl⟩
  · rw [blink_run c l hl fuel]
    exact ⟨rfl, by simp⟩
  · rw [blink_run c l hl fuel]
    simp only
    rw [filter_blinkRounds, take_specOnOff l n fuel hn]
  · rw [dispatch_blink]
    simp [goStmt, blink_run c l hl fuel]
  · simp [blinkRounds, Second, Millisecond]

theorem blink_alternates_forever_witness :
    ((Car.blink 3 (NewCarBuilder.Light (some 4)).Build).trace.filter Event.isLight).take (2 * 2)
      = [.lightOn 4, .lightOff 4, .lightOn 4, .lightOff 4] :=
  (blink_alternates_forever (NewCarBuilder.Light (some 4)).Build 4 rfl).2.1 3 2 (by decide)

/-! ## Start -/

theorem start_after_Start (fuel n : Nat) (b : CarBuilder) :
    Car.start fuel (n + 2) { b.Build with chOp := [CarOp.blink] } =
      { status := .blocked, car := b.Build,
        trace := (Car.dispatch fuel b.Build CarOp.blink).trace } := by
  have e : ({ b.Build with chOp := [] } : Car) = b.Build := rfl
  obtain ⟨h1, h2⟩ := dispatch_blink_status fuel b.Build
  have hb : Car.start fuel (n + 1) b.Build =
      { status := .blocked, car := b.Build, trace := [] } := by
    simp [Car.start, CarBuilder.Build]
  rw [Car.start]
  simp only [e, Run.next, h1, h2, hb, List.append_nil]

/-- C13. On a freshly built car with a Steering, `Start()` returns nil without
blocking; its only actuator call is `Steering.Roll(0)`, it enqueues exactly one
command, Blink, and leaves `steeringAngle` at 0. The control loop then takes
Blink off the queue as its first command, handles it, and parks on the empty
queue. -/
theorem start_enqueues_blink (fuel n : Nat) (b : CarBuilder) (s : Handle)
    (hs : b.steering = some s) :
    Car.Start fuel n b.Build =
      { status := .done none, car := { b.Build with chOp := [CarOp.blink] },
        trace := [.go .start, .go .roll, .steeringRoll s 0] } ∧
    (Car.Start fuel n b.Build).trace.filter Event.isActuator = [.steeringRoll s 0] ∧
    (Car.Start fuel n b.Build).car.chOp = [CarOp.blink] ∧
    (Car.Start fuel n b.Build).car.steeringAngle = 0 ∧
    System.consumed fuel ⟨(Car.Start fuel n b.Build).car, [], [], false⟩ [.loop] =
      [CarOp.blink] ∧
    Car.start fuel (n + 2) (Car.Start fuel n b.Build).car =
      { status := .blocked, car := b.Build,
        trace := (Car.dispatch fuel b.Build CarOp.blink).trace } := by
  rw [Start_run fuel n b s hs]
  refine ⟨rfl, ?_, rfl, rfl, ?_, start_after_Start fuel n b⟩
  · simp [Event.isActuator, Event.isEngine, Event.isHorn, Event.isLight, Event.isSteering]
  · simp [System.consumed, System.received]

theorem start_enqueues_blink_witness :
    (Car.Start 1 1 ((NewCarBuilder.Engine (some 1)).Steering (some 2)).Build).status
      = .done none ∧
    (Car.Start 1 1 ((NewCarBuilder.Engine (some 1)).Steering (some 2)).Build).car.chOp
      = [CarOp.blink] :=
  have h := start_enqueues_blink 1 1 ((NewCarBuilder.Engine (some 1)).Steering (some 2)) 2 rfl
  ⟨congrArg Run.status h.1, h.2.2.1⟩

/-! ## Builder -/

theorem bind_fields (b : CarBuilder) (x : Binding) :
    (b.bind x).engine = (match x.engine? with | some v => v | none => b.engine) ∧
    (b.bind x).horn = (match x.horn? with | some v => v | none => b.horn) ∧
    (b.bind x).light = (match x.light? with | some v => v | none => b.light) ∧
    (b.bind x).steering = (match x.steering? with | some v => v | none => b.steering) := by
  cases x <;> exact ⟨rfl, rfl, rfl, rfl⟩

theorem bindAll_field (field : CarBuilder → Option Handle)
    (sel : Binding → Option (Option Handle))
    (hstep : ∀ (b : CarBuilder) (x : Binding),
      field (b.bind x) = (match sel x with | some v => v | none => field b))
    (bs : List Binding) :
    ∀ b : CarBuilder,
      field (b.bindAll bs) =
        (match bs.reverse.findSome? sel with | some v => v | none => field b) := by
  induction bs with
  | nil => intro b; rfl
  | cons x xs ih =>
    intro b
    rw [CarBuilder.bindAll, ih (b.bind x), List.reverse_cons, List.findSome?_append, hstep]
    cases h1 : List.findSome? sel xs.reverse with
    | some v => simp
    | none => cases h2 : sel x <;> simp [List.findSome?, h2]

/-- C14. For every chain of builder calls on a new builder, `Build` yields a car
in which each capability is the value most recently bound for it (absent if never
bound), `steeringAngle` is 0, and the command queue is empty, open and of
capacity 8 (a `Do` returns while fewer than 8 commands are queued and blocks at
8); each builder method changes only its own field. -/
theorem build_keeps_latest_bindings (bs : List Binding) :
    ((NewCarBuilder.bindAll bs).Build.engine = specLastBound Binding.engine? bs ∧
      (NewCarBuilder.bindAll bs).Build.horn = specLastBound Binding.horn? bs ∧
      (NewCarBuilder.bindAll bs).Build.light = specLastBound Binding.light? bs ∧
      (NewCarBuilder.bindAll bs).Build.steering = specLastBound Binding.steering? bs) ∧
    ((NewCarBuilder.bindAll bs).Build.steeringAngle = 0 ∧
      (NewCarBuilder.bindAll bs).Build.chOp = [] ∧
      (NewCarBuilder.bindAll bs).Build.chClosed = false) ∧
    (chSize = 8 ∧
      ∀ (q : List CarOp) (op : CarOp),
        (Car.Do { (NewCarBuilder.bindAll bs).Build with chOp := q } op).status =
          if q.length < 8 then .done () else .blocked) ∧
    (∀ (b : CarBuilder) (v : Option Handle),
      (b.Engine v = { b with engine := v }) ∧ (b.Horn v = { b with horn := v }) ∧
      (b.Light v = { b with light := v }) ∧ (b.Steering v = { b with steering := v }) ∧
      ((b.Engine v).horn = b.horn ∧ (b.Engine v).light = b.light ∧
        (b.Engine v).steering = b.steering) ∧
      ((b.Horn v).engine = b.engine ∧ (b.Horn v).light = b.light ∧
        (b.Horn v).steering = b.steering) ∧
      ((b.Light v).engine = b.engine ∧ (b.Light v).horn = b.horn ∧
        (b.Light v).steering = b.steering) ∧
      ((b.Steering v).engine = b.engine ∧ (b.Steering v).horn = b.horn ∧
        (b.Steering v).light = b.light)) := by
  refine ⟨⟨?_, ?_, ?_, ?_⟩, ⟨rfl, rfl, rfl⟩, ⟨rfl, fun q op => ?_⟩, fun b v => ?_⟩
  · exact bindAll_field CarBuilder.engine Binding.engine?
      (fun b x => (bind_fields b x).1) bs NewCarBuilder
  · exact bindAll_field CarBuilder.horn Binding.horn?
      (fun b x => (bind_fields b x).2.1) bs NewCarBuilder
  · exact bindAll_field CarBuilder.light Binding.light?
      (fun b x => (bind_fields b x).2.2.1) bs NewCarBuilder
  · exact bindAll_field CarBuilder.steering Binding.steering?
      (fun b x => (bind_fields b x).2.2.2) bs NewCarBuilder
  · by_cases hl : q.length < 8
    · rw [if_pos hl, Do_open_room _ rfl op hl]
    · rw [if_neg hl, Do_open_full _ rfl op hl]
  · exact ⟨rfl, rfl, rfl, rfl, ⟨rfl, rfl, rfl⟩, ⟨rfl, rfl, rfl⟩, ⟨rfl, rfl, rfl⟩, ⟨rfl, rfl, rfl⟩⟩

end Devices
